import Mathlib

/-!
Verification of the ModderSecureSDK secure-envelope core (src/src/index.js).

The JavaScript source is shallowly embedded:
* JS strings are `List Char`; Node `Buffer`s are `List Nat` (byte values).
* Node's `crypto` AEAD primitive (`createCipheriv('aes-256-gcm', ...)`) is
  modelled symbolically by an executable ideal AEAD (`gcmModel`): the
  ciphertext is the plaintext masked with a key/nonce-derived stream, and the
  authentication tag is an injective encoding of (key, nonce, ciphertext), so
  that the documented GCM contract (round-trip, tamper and wrong-key
  rejection) holds exactly rather than with overwhelming probability.
* `scryptSync` is modelled by a deterministic executable key expander.
* RSA-OAEP (`publicEncrypt` / `privateDecrypt`) is modelled symbolically by an
  executable scheme in which a keypair shares its key-material byte list and
  the ciphertext binds that material injectively.
* Exceptions become `Except` values; each distinct `throw` site of the source
  is a distinct `SdkError` constructor, grouped into the spec's error classes.
-/

/-! ## Hex encoding (Node `Buffer.toString('hex')` / `Buffer.from(s,'hex')`) -/

/-- Lowercase hex digit for `n < 16`, as Node's `'hex'` encoding emits. -/
def hexDigit (n : Nat) : Char :=
  if n < 10 then Char.ofNat (48 + n) else Char.ofNat (87 + n)

/-- Two lowercase hex characters for one byte (`b < 256`). -/
def hexByte (b : Nat) : List Char :=
  [hexDigit (b / 16 % 16), hexDigit (b % 16)]

/-- `Buffer.toString('hex')`: bytes to lowercase hex characters. -/
def hexEncode : List Nat → List Char
  | [] => []
  | b :: bs => hexByte b ++ hexEncode bs

/-- Numeric value of a hex character; accepts both cases, as Node's hex
decoder does. -/
def hexVal (c : Char) : Option Nat :=
  if 48 ≤ c.toNat ∧ c.toNat ≤ 57 then some (c.toNat - 48)
  else if 97 ≤ c.toNat ∧ c.toNat ≤ 102 then some (c.toNat - 87)
  else if 65 ≤ c.toNat ∧ c.toNat ≤ 70 then some (c.toNat - 55)
  else none

/-- `Buffer.from(s, 'hex')`: decodes pairs of hex digits from the front and
stops at the first invalid pair or odd leftover character, which is Node's
behaviour. -/
def hexDecode : List Char → List Nat
  | c1 :: c2 :: rest =>
    match hexVal c1, hexVal c2 with
    | some h, some l => (16 * h + l) :: hexDecode rest
    | _, _ => []
  | _ => []

/-! ## JS `String.prototype.split(sep)` for a single-character separator -/

/-- JS `s.split(':')`: splits on every occurrence, keeping empty pieces. -/
def splitOnChar (sep : Char) : List Char → List (List Char)
  | [] => [[]]
  | c :: rest =>
    if c = sep then [] :: splitOnChar sep rest
    else
      match splitOnChar sep rest with
      | [] => [[c]]
      | p :: ps => (c :: p) :: ps

/-! ## JSON values

`JsVal` models the JavaScript structured values that `JSON.stringify` /
`JSON.parse` exchange in the source.  JS numbers are modelled as integers
(`Int`); the source only ever serializes integer timestamps, and the claims
are stated over this integer fragment.  Object fields are an ordered list of
key/value pairs, as `JSON.stringify` emits them and `JSON.parse` reads them. -/

inductive JsVal where
  | null : JsVal
  | bool : Bool → JsVal
  | num : Int → JsVal
  | str : List Char → JsVal
  | arr : List JsVal → JsVal
  | obj : List (List Char × JsVal) → JsVal

/-- JS property lookup on a parsed object: with duplicate keys the later
assignment wins, so the last binding is returned. -/
def lookupField (fs : List (List Char × JsVal)) (k : List Char) : Option JsVal :=
  match fs with
  | [] => none
  | (k', v) :: rest =>
    match lookupField rest k with
    | some w => some w
    | none => if k' = k then some v else none

/-- Decimal digit character. -/
def digitCh (n : Nat) : Char := Char.ofNat (48 + n)

/-- Decimal digits, fuel-indexed so that the definition is structural (the
fuel `n + 1` always suffices). -/
def natToDigitsAux : Nat → Nat → List Char
  | 0, _ => []
  | fuel + 1, n =>
    if n < 10 then [digitCh n] else natToDigitsAux fuel (n / 10) ++ [digitCh (n % 10)]

/-- Decimal digits of a natural number, most significant first
(JS `Number.prototype.toString` for integers). -/
def natToDigits (n : Nat) : List Char := natToDigitsAux (n + 1) n

/-- JS decimal rendering of an integer. -/
def intToChars (i : Int) : List Char :=
  if i < 0 then '-' :: natToDigits (-i).toNat else natToDigits i.toNat

/-- `JSON.stringify` escaping of one string character: `\"`, `\\`, the
control-character shorthands, and `\u00XX` for the remaining controls. -/
def escapeChar (c : Char) : List Char :=
  if c = '"' then ['\\', '"']
  else if c = '\\' then ['\\', '\\']
  else if c.toNat = 8 then ['\\', 'b']
  else if c.toNat = 9 then ['\\', 't']
  else if c.toNat = 10 then ['\\', 'n']
  else if c.toNat = 12 then ['\\', 'f']
  else if c.toNat = 13 then ['\\', 'r']
  else if c.toNat < 32 then ['\\', 'u', '0', '0', hexDigit (c.toNat / 16), hexDigit (c.toNat % 16)]
  else [c]

def escapeString : List Char → List Char
  | [] => []
  | c :: cs => escapeChar c ++ escapeString cs

mutual

/-- `JSON.stringify` (no indentation), over the integer-number fragment. -/
def jsonStringify : JsVal → List Char
  | .null => "null".data
  | .bool true => "true".data
  | .bool false => "false".data
  | .num i => intToChars i
  | .str s => '"' :: (escapeString s ++ ['"'])
  | .arr xs => '[' :: (stringifyElems xs ++ [']'])
  | .obj fs => '{' :: (stringifyMembers fs ++ ['}'])

def stringifyElems : List JsVal → List Char
  | [] => []
  | [x] => jsonStringify x
  | x :: y :: xs => jsonStringify x ++ ',' :: stringifyElems (y :: xs)

def stringifyMembers : List (List Char × JsVal) → List Char
  | [] => []
  | [(k, v)] => '"' :: (escapeString k ++ ['"', ':'] ++ jsonStringify v)
  | (k, v) :: m :: fs =>
      ('"' :: (escapeString k ++ ['"', ':'] ++ jsonStringify v)) ++ ',' :: stringifyMembers (m :: fs)

end

mutual

/-- Size measure driving the parser's fuel sufficiency argument. -/
def sizeV : JsVal → Nat
  | .null => 1
  | .bool _ => 1
  | .num _ => 1
  | .str _ => 1
  | .arr xs => 1 + sizeL xs
  | .obj fs => 1 + sizeM fs

def sizeL : List JsVal → Nat
  | [] => 0
  | x :: xs => 1 + sizeV x + sizeL xs

def sizeM : List (List Char × JsVal) → Nat
  | [] => 0
  | (_, v) :: fs => 1 + sizeV v + sizeM fs

end

/-! ## JSON parser (`JSON.parse`, over the integer-number fragment) -/

def isJsonWs (c : Char) : Bool := c.toNat = 32 || c.toNat = 9 || c.toNat = 10 || c.toNat = 13

def skipWs : List Char → List Char
  | [] => []
  | c :: rest => if isJsonWs c then skipWs rest else c :: rest

def isDigitCh (c : Char) : Bool := 48 ≤ c.toNat && c.toNat ≤ 57

/-- JSON short escape sequences. -/
def unescapeChar (e : Char) : Option Char :=
  if e = '"' then some '"'
  else if e = '\\' then some '\\'
  else if e = '/' then some '/'
  else if e = 'b' then some (Char.ofNat 8)
  else if e = 't' then some (Char.ofNat 9)
  else if e = 'n' then some (Char.ofNat 10)
  else if e = 'f' then some (Char.ofNat 12)
  else if e = 'r' then some (Char.ofNat 13)
  else none

/-- Body of a JSON string literal, after the opening quote: returns the
decoded contents and the input after the closing quote.  Raw control
characters are rejected, as `JSON.parse` rejects them.  (`\uXXXX` escapes are
decoded one code unit at a time; surrogate-pair recombination is not
modelled — the encoder side never emits escapes above `\u001f`.) -/
def parseStringBody : List Char → Option (List Char × List Char)
  | [] => none
  | c :: rest =>
    if c = '"' then some ([], rest)
    else if c = '\\' then
      match rest with
      | [] => none
      | e :: rest2 =>
        if e = 'u' then
          match rest2 with
          | h1 :: h2 :: h3 :: h4 :: rest3 =>
            match hexVal h1, hexVal h2, hexVal h3, hexVal h4 with
            | some a, some b, some c2, some d =>
              (parseStringBody rest3).map fun p =>
                (Char.ofNat (4096 * a + 256 * b + 16 * c2 + d) :: p.1, p.2)
            | _, _, _, _ => none
          | _ => none
        else
          match unescapeChar e with
          | some u => (parseStringBody rest2).map fun p => (u :: p.1, p.2)
          | none => none
    else if c.toNat < 32 then none
    else (parseStringBody rest).map fun p => (c :: p.1, p.2)

/-- Consume a run of decimal digits, accumulating their value. -/
def parseDigits : List Char → Nat → Nat × List Char
  | c :: rest, acc =>
    if isDigitCh c then parseDigits rest (10 * acc + (c.toNat - 48)) else (acc, c :: rest)
  | [], acc => (acc, [])

/-- `true` when the input does not begin with a decimal digit (so a digit run
ending here is maximal). -/
def noDigitHead : List Char → Bool
  | [] => true
  | c :: _ => !(isDigitCh c)

def parseNumAfterSign (neg : Bool) : List Char → Option (Int × List Char)
  | [] => none
  | c :: rest =>
    if isDigitCh c then
      if c == '0' && !(noDigitHead rest) then none
      else
        let q := parseDigits rest (c.toNat - 48)
        some ((if neg then -(q.1 : Int) else (q.1 : Int)), q.2)
    else none

/-- JSON integer literal: optional minus sign, digits, no leading zeros.
Fractional and exponent forms are outside the modelled fragment. -/
def parseNumber : List Char → Option (Int × List Char)
  | [] => none
  | c :: rest => if c = '-' then parseNumAfterSign true rest else parseNumAfterSign false (c :: rest)

mutual

/-- Fuel-indexed JSON value parser. -/
def parseVal : Nat → List Char → Option (JsVal × List Char)
  | 0, _ => none
  | fuel + 1, input =>
    match skipWs input with
    | [] => none
    | c :: rest =>
      if c = '{' then
        match skipWs rest with
        | [] => none
        | c2 :: rest2 =>
          if c2 = '}' then some (.obj [], rest2)
          else (parseMembers fuel (c2 :: rest2)).map fun p => (JsVal.obj p.1, p.2)
      else if c = '[' then
        match skipWs rest with
        | [] => none
        | c2 :: rest2 =>
          if c2 = ']' then some (.arr [], rest2)
          else (parseElems fuel (c2 :: rest2)).map fun p => (JsVal.arr p.1, p.2)
      else if c = '"' then
        (parseStringBody rest).map fun p => (JsVal.str p.1, p.2)
      else if c = 't' then
        match rest with
        | 'r' :: 'u' :: 'e' :: rest2 => some (.bool true, rest2)
        | _ => none
      else if c = 'f' then
        match rest with
        | 'a' :: 'l' :: 's' :: 'e' :: rest2 => some (.bool false, rest2)
        | _ => none
      else if c = 'n' then
        match rest with
        | 'u' :: 'l' :: 'l' :: rest2 => some (.null, rest2)
        | _ => none
      else
        (parseNumber (c :: rest)).map fun p => (JsVal.num p.1, p.2)

/-- One-or-more comma-separated array elements followed by `]`. -/
def parseElems : Nat → List Char → Option (List JsVal × List Char)
  | 0, _ => none
  | fuel + 1, input =>
    match parseVal fuel input with
    | none => none
    | some (v, rest) =>
      match skipWs rest with
      | [] => none
      | c2 :: rest2 =>
        if c2 = ',' then (parseElems fuel rest2).map fun p => (v :: p.1, p.2)
        else if c2 = ']' then some ([v], rest2)
        else none

/-- One-or-more `"key": value` members followed by `\x7d`; input is
whitespace-skipped and must start with a quote. -/
def parseMembers : Nat → List Char → Option (List (List Char × JsVal) × List Char)
  | 0, _ => none
  | fuel + 1, input =>
    match input with
    | [] => none
    | c0 :: rest =>
      if c0 = '"' then
        match parseStringBody rest with
        | none => none
        | some (k, rest1) =>
          match skipWs rest1 with
          | [] => none
          | c1 :: rest2 =>
            if c1 = ':' then
              match parseVal fuel rest2 with
              | none => none
              | some (v, rest3) =>
                match skipWs rest3 with
                | [] => none
                | c3 :: rest4 =>
                  if c3 = ',' then
                    (parseMembers fuel (skipWs rest4)).map fun p => ((k, v) :: p.1, p.2)
                  else if c3 = '}' then some ([(k, v)], rest4)
                  else none
            else none
      else none

end

/-- `JSON.parse`: the whole input must be one JSON value, up to surrounding
whitespace. -/
def jsonParse (s : List Char) : Option JsVal :=
  match parseVal (s.length + 1) s with
  | some (v, rest) => if skipWs rest = [] then some v else none
  | none => none

/-- The continuation text after the first element of a non-singleton list. -/
def elemsTail : List JsVal → List Char
  | [] => []
  | y :: ys => ',' :: stringifyElems (y :: ys)

/-- The continuation text after the first member of an object body. -/
def membersTail : List (List Char × JsVal) → List Char
  | [] => []
  | m :: fs => ',' :: stringifyMembers (m :: fs)

/-- Round-trip statement for values at a given fuel. -/
def RTV (fuel : Nat) : Prop :=
  ∀ v rest, sizeV v ≤ fuel → noDigitHead rest = true →
    parseVal fuel (jsonStringify v ++ rest) = some (v, rest)

/-- Round-trip statement for non-empty element lists at a given fuel. -/
def RTL (fuel : Nat) : Prop :=
  ∀ xs rest, xs ≠ [] → sizeL xs ≤ fuel →
    parseElems fuel (stringifyElems xs ++ ']' :: rest) = some (xs, rest)

/-- Round-trip statement for non-empty member lists at a given fuel. -/
def RTM (fuel : Nat) : Prop :=
  ∀ fs rest, fs ≠ [] → sizeM fs ≤ fuel →
    parseMembers fuel (stringifyMembers fs ++ '}' :: rest) = some (fs, rest)

/-! ## Symbolic model of the `aes-256-gcm` primitive

The source calls Node's `createCipheriv('aes-256-gcm', key, iv)` /
`createDecipheriv` with `getAuthTag` / `setAuthTag`.  The platform cipher is
modelled symbolically: the ciphertext is the plaintext masked by a
key/nonce-derived stream, and the authentication tag is an injective encoding
of (key, nonce, ciphertext), so decryption succeeds exactly on the genuine
(key, nonce, ciphertext, tag) combination — the GCM contract, which holds for
the real cipher with overwhelming probability, holds here exactly.

The model's validity envelope: `gcmDecrypt` compares the supplied tag against
the whole genuine tag, which matches the platform exactly when the supplied
tag is a full-length one (Node's `setAuthTag` then has a valid 16-byte tag and
`final()` compares all of it).  The platform's further behaviours at
degenerate inputs — acceptance of NIST-valid truncated prefixes of the
genuine tag, the `ERR_CRYPTO_INVALID_AUTH_TAG` throw of `setAuthTag` at other
tag lengths, and the invalid-IV throw of `createDecipheriv` at an empty
nonce, all raised before the source's `try` block — are not modelled; the
theorems below therefore only ever evaluate `gcmDecrypt` at a full genuine
tag and a non-empty nonce, where model and platform agree. -/

def ksByte (key nonce : List Nat) (i : Nat) : Nat :=
  (key.sum * 131 + nonce.sum * 257 + i * 31 + 7) % 256

def maskAux (key nonce : List Nat) : Nat → List Nat → List Nat
  | _, [] => []
  | i, b :: bs => (b + ksByte key nonce i) % 256 :: maskAux key nonce (i + 1) bs

def unmaskAux (key nonce : List Nat) : Nat → List Nat → List Nat
  | _, [] => []
  | i, b :: bs => (b + 256 - ksByte key nonce i) % 256 :: unmaskAux key nonce (i + 1) bs

/-- Authentication tag: length-prefixed injective encoding of
(key, nonce, ciphertext). -/
def tagOf (key nonce ct : List Nat) : List Nat :=
  key.length :: (key ++ nonce.length :: (nonce ++ ct))

def gcmEncrypt (key nonce pt : List Nat) : List Nat × List Nat :=
  let ct := maskAux key nonce 0 pt
  (ct, tagOf key nonce ct)

def gcmDecrypt (key nonce ct tag : List Nat) : Option (List Nat) :=
  if tag = tagOf key nonce ct then some (unmaskAux key nonce 0 ct) else none

/-! ## The SDK core (`ModderSecureSDK`, src/src/index.js)

JS strings are `List Char`; `Buffer`s are `List Nat`.  The byte/text
conversions (`Buffer.from(s, 'utf8')` and decoding with `'utf8'`) are
modelled as the code-point maps, faithful for code points below 128; every
string the SDK itself feeds through this path is ASCII.  The randomness the
source draws (`randomBytes`, `Date.now()`) is taken as explicit arguments. -/

def strBytes (s : List Char) : List Nat := s.map Char.toNat

def bytesToChars (bs : List Nat) : List Char := bs.map Char.ofNat

/-- Every `throw` site of the source, tagged with the spec's error class. -/
inductive SdkError where
  | configSecretRequired : SdkError
  | configSaltRequired : SdkError
  | invalidSessionKey : SdkError
  | inputNotString : SdkError
  | formatMsc : SdkError
  | formatJson : SdkError
  | unsecuredData : SdkError
  | structureId : SdkError
  | structureNewId : SdkError
  | structureReqTs : SdkError
  | formatBundle : SdkError
  | authFail : SdkError
  | invalidHeaderFormat : SdkError
  | headerAuthFail : SdkError
  | invalidRsaKeyLen : SdkError
  | unwrapFail : SdkError
  | authzFail : SdkError
  | premiumDecryptFail : SdkError → SdkError
deriving DecidableEq

/-- The spec's `FormatError` class (malformed envelope or bundle shape). -/
def SdkError.isFormatError : SdkError → Bool
  | .formatMsc | .formatJson | .formatBundle | .inputNotString | .invalidHeaderFormat => true
  | _ => false

/-- The spec's `StructureError` class (missing/mistyped required fields). -/
def SdkError.isStructureError : SdkError → Bool
  | .structureId | .structureNewId | .structureReqTs => true
  | _ => false

/-- The spec's `AuthenticationError` class (AEAD rejection). -/
def SdkError.isAuthenticationError : SdkError → Bool
  | .authFail | .headerAuthFail => true
  | _ => false

/-- The spec's `ConfigurationError` class (construction failures). -/
def SdkError.isConfigurationError : SdkError → Bool
  | .configSecretRequired | .configSaltRequired => true
  | _ => false

/-- JS property access `obj.k` on a parsed JSON value (undefined on
non-objects; with duplicate keys the later one wins, as `JSON.parse`
builds the object). -/
def getField (j : JsVal) (k : List Char) : Option JsVal :=
  match j with
  | .obj fs => lookupField fs k
  | _ => none

structure ModderSecureSDK where
  aesMasterKey : List Nat

/-- Modelled `scryptSync(secret, salt, 32)`: a deterministic executable
32-byte key expansion standing in for the platform KDF. -/
def scryptSync (secret : List Char) (salt : List Nat) (keyLen : Nat) : List Nat :=
  (List.range keyLen).map fun i =>
    ((strBytes secret).sum * 257 + salt.sum * 131 + i * 31 + 5) % 256

def DEV_FALLBACK_SALT : List Char := "DEV_FALLBACK_SALT_DO_NOT_USE_IN_PROD_1234567890".data

/-- JS truthiness of an optional environment string (`undefined` and `''`
are falsy). -/
def envTruthy : Option (List Char) → Bool
  | none => false
  | some s => !(s.isEmpty)

/-- The `ModderSecureSDK` constructor.  A non-string `serverMasterKeyString`
is modelled by `none`.  The second component of the result models the
constructor's console output: the source logs nothing during construction. -/
def mkSDK (serverMasterKeyString : Option (List Char)) (saltEnv : Option (List Char))
    (nodeEnv : Option (List Char)) :
    Except SdkError (ModderSecureSDK × List (List Char)) :=
  match serverMasterKeyString with
  | none => .error .configSecretRequired
  | some s =>
    if s.isEmpty then .error .configSecretRequired
    else if nodeEnv = some ("production".data) ∧ envTruthy saltEnv = false then
      .error .configSaltRequired
    else
      let saltStr := if envTruthy saltEnv then saltEnv.getD [] else DEV_FALLBACK_SALT
      .ok (⟨scryptSync s (strBytes saltStr) 32⟩, [])

structure EncryptResult where
  mscString : List Char
  originalRequestId : List Char
  originalTimestamp : Int

namespace ModderSecureSDK

/-- `encrypt(data, sessionKey)`.  The source's random draws (`iv`,
`originalRequestId`, `Date.now()`, `newTimeBasedId`) are explicit
arguments. -/
def encrypt (data : JsVal) (sessionKey : List Nat) (iv : List Nat)
    (originalRequestId : List Char) (originalTimestamp : Int) (newTimeBasedId : List Char) :
    Except SdkError EncryptResult :=
  if sessionKey.length ≠ 32 then .error .invalidSessionKey
  else
    let p := gcmEncrypt sessionKey iv (strBytes (jsonStringify data))
    let actualEncryptedPayloadString :=
      hexEncode iv ++ ':' :: (hexEncode p.1 ++ ':' :: hexEncode p.2)
    let reversedEncryptedId := actualEncryptedPayloadString.reverse
    let mjsonResponse : JsVal := .obj
      [ ("id".data, .str reversedEncryptedId)
      , ("new_id".data, .str newTimeBasedId)
      , ("is_secured".data, .bool true)
      , ("request".data, .str originalRequestId)
      , ("timestamp".data, .num originalTimestamp) ]
    .ok ⟨"msc".data ++ jsonStringify mjsonResponse, originalRequestId, originalTimestamp⟩

/-- JS `=== false` on a possibly-absent property value. -/
def isSecuredFalse : Option JsVal → Bool
  | some (.bool false) => true
  | _ => false

/-- JS `typeof x === 'string'` on a possibly-absent property value. -/
def jsStringField : Option JsVal → Option (List Char)
  | some (.str s) => some s
  | _ => none

/-- JS `typeof x === 'number'` on a possibly-absent property value. -/
def jsNumField : Option JsVal → Option Int
  | some (.num n) => some n
  | _ => none

/-- The body of `decrypt` from the `JSON.parse` result onward: flag check,
required-field checks, bundle split, AEAD decryption. -/
def decryptParsed (j : JsVal) (sessionKey : List Nat) : Except SdkError JsVal :=
  if isSecuredFalse (getField j ("is_secured".data)) then .error .unsecuredData
  else
    match jsStringField (getField j ("id".data)) with
    | none => .error .structureId
    | some idStr =>
      if idStr.isEmpty then .error .structureId
      else
        match jsStringField (getField j ("new_id".data)) with
        | none => .error .structureNewId
        | some newIdStr =>
          if newIdStr.isEmpty then .error .structureNewId
          else
            match jsStringField (getField j ("request".data)),
                jsNumField (getField j ("timestamp".data)) with
            | some _, some _ =>
              match splitOnChar ':' idStr.reverse with
              | [p0, p1, p2] =>
                match gcmDecrypt sessionKey (hexDecode p0) (hexDecode p1) (hexDecode p2) with
                | some ptBytes =>
                  match jsonParse (bytesToChars ptBytes) with
                  | some w => .ok w
                  | none => .error .authFail
                | none => .error .authFail
              | _ => .error .formatBundle
            | _, _ => .error .structureReqTs

/-- `decrypt(mjsonString, sessionKey)`.  Validation order and error classes
follow the source line by line; the final `try` block (`update`/`final` and
`JSON.parse` of the plaintext) maps every failure to the single `authFail`
rejection, as the source's `catch` does.  The source's `createDecipheriv` and
`setAuthTag` calls sit *before* that `try` and can throw their own uncaught
platform errors at an empty decoded nonce or an invalidly-sized decoded tag;
those throw sites are not modelled, so this definition is read only at inputs
whose bundle decodes to a non-empty nonce and a full genuine tag (or errors
before reaching the cipher), where it matches the program. -/
def decrypt (mjsonString : List Char) (sessionKey : List Nat) : Except SdkError JsVal :=
  if sessionKey.length ≠ 32 then .error .invalidSessionKey
  else if mjsonString.isEmpty then .error .inputNotString
  else if ¬ (mjsonString.take 4 = "msc\x7b".data ∧ mjsonString.getLast? = some '}') then
    .error .formatMsc
  else
    match jsonParse (mjsonString.drop 3) with
    | none => .error .formatJson
    | some j => decryptParsed j sessionKey

/-- `encryptHeaderData(requestId, timestamp)`: seals the metadata tuple under
the instance's master key, producing the plain colon-joined triple. -/
def encryptHeaderData (sdk : ModderSecureSDK) (requestId : List Char) (timestamp : Int)
    (iv : List Nat) : List Char :=
  let headerData : JsVal := .obj
    [("requestId".data, .str requestId), ("timestamp".data, .num timestamp)]
  let p := gcmEncrypt sdk.aesMasterKey iv (strBytes (jsonStringify headerData))
  hexEncode iv ++ ':' :: (hexEncode p.1 ++ ':' :: hexEncode p.2)

/-- `decryptHeaderData(encryptedHeaderData)`: opens the sealed metadata with
the instance's master key. -/
def decryptHeaderData (sdk : ModderSecureSDK) (encryptedHeaderData : List Char) :
    Except SdkError JsVal :=
  match splitOnChar ':' encryptedHeaderData with
  | [p0, p1, p2] =>
    match gcmDecrypt sdk.aesMasterKey (hexDecode p0) (hexDecode p1) (hexDecode p2) with
    | some pt =>
      match jsonParse (bytesToChars pt) with
      | some w => .ok w
      | none => .error .headerAuthFail
    | none => .error .headerAuthFail
  | _ => .error .invalidHeaderFormat

end ModderSecureSDK

/-! ## Behaviour of `decrypt` on well-formed envelopes -/

/-- The envelope string `encrypt` produces, as a function of its fields (the
`id` slot holds the already-reversed ciphertext-bundle text). -/
def mkEnvelope (idStr newId reqId : List Char) (ts : Int) : List Char :=
  "msc".data ++ jsonStringify (.obj
    [ ("id".data, .str idStr)
    , ("new_id".data, .str newId)
    , ("is_secured".data, .bool true)
    , ("request".data, .str reqId)
    , ("timestamp".data, .num ts) ])

/-- The colon-joined hex ciphertext bundle `encrypt` builds for payload
`data` under `sessionKey` and nonce `iv`:
`hex(nonce):hex(ciphertext):hex(tag)`. -/
def bundleOf (sessionKey iv : List Nat) (data : JsVal) : List Char :=
  hexEncode iv ++ ':'
    :: (hexEncode (gcmEncrypt sessionKey iv (strBytes (jsonStringify data))).1 ++ ':'
      :: hexEncode (gcmEncrypt sessionKey iv (strBytes (jsonStringify data))).2)

/-! ## Tampering behaviour (C2) -/

def ctHexOf (sessionKey iv : List Nat) (data : JsVal) : List Char :=
  hexEncode (gcmEncrypt sessionKey iv (strBytes (jsonStringify data))).1

def tagHexOf (sessionKey iv : List Nat) (data : JsVal) : List Char :=
  hexEncode (gcmEncrypt sessionKey iv (strBytes (jsonStringify data))).2

/-- An envelope whose ciphertext bundle carries `ctHex` and `tagHex` in the
ciphertext and tag fields (the genuine envelope when both are the encoder's
own hex strings). -/
def tamperedEnvelope (iv : List Nat) (ctHex tagHex newId reqId : List Char) (ts : Int) :
    List Char :=
  mkEnvelope ((hexEncode iv ++ ':' :: (ctHex ++ ':' :: tagHex)).reverse) newId reqId ts

/-! ## The `id` field of produced envelopes (C3, C10) -/

/-- Read one field of an envelope string the way the decoder does: strip the
3-character marker, `JSON.parse`, and access the property. -/
def envelopeField (mscString fieldName : List Char) : Option JsVal :=
  (jsonParse (mscString.drop 3)).bind fun j => getField j fieldName

/-- The mjson object with only the wire format's minimum keys
(`request`, `timestamp`, `id`, `is_secured`) — no `new_id`. -/
def mkEnvelopeNoNewId (idStr reqId : List Char) (ts : Int) : List Char :=
  "msc".data ++ jsonStringify (.obj
    [ ("request".data, .str reqId)
    , ("timestamp".data, .num ts)
    , ("id".data, .str idStr)
    , ("is_secured".data, .bool true) ])

/-! ## Asymmetric session-key wrapping (C5)

`publicEncrypt` / `privateDecrypt` with OAEP padding are platform primitives;
they are modelled symbolically: RSA key material is a byte list shared by the
two halves of a keypair, the "ciphertext" binds the key material injectively
(hex-encoded material, a 255 separator byte that cannot occur in hex text,
then the message), and decryption succeeds exactly when the private key's
material matches.  `Buffer.toString('base64')` / `Buffer.from(_, 'base64')`
follow RFC 4648 with padding, which is what Node emits and accepts here. -/

def base64Char (n : Nat) : Char :=
  if n < 26 then Char.ofNat (65 + n)
  else if n < 52 then Char.ofNat (97 + (n - 26))
  else if n < 62 then Char.ofNat (48 + (n - 52))
  else if n = 62 then '+'
  else '/'

def base64Encode : List Nat → List Char
  | [] => []
  | [b1] => [base64Char (b1 / 4), base64Char (b1 % 4 * 16), '=', '=']
  | [b1, b2] =>
    [base64Char (b1 / 4), base64Char (b1 % 4 * 16 + b2 / 16), base64Char (b2 % 16 * 4), '=']
  | b1 :: b2 :: b3 :: rest =>
    base64Char (b1 / 4) :: base64Char (b1 % 4 * 16 + b2 / 16)
      :: base64Char (b2 % 16 * 4 + b3 / 64) :: base64Char (b3 % 64) :: base64Encode rest

def base64Val (c : Char) : Option Nat :=
  if 65 ≤ c.toNat ∧ c.toNat ≤ 90 then some (c.toNat - 65)
  else if 97 ≤ c.toNat ∧ c.toNat ≤ 122 then some (c.toNat - 71)
  else if 48 ≤ c.toNat ∧ c.toNat ≤ 57 then some (c.toNat + 4)
  else if c = '+' then some 62
  else if c = '/' then some 63
  else none

def base64Decode : List Char → List Nat
  | c1 :: c2 :: c3 :: c4 :: rest =>
    match base64Val c1, base64Val c2 with
    | some v1, some v2 =>
      match base64Val c3 with
      | some v3 =>
        match base64Val c4 with
        | some v4 =>
          (v1 * 4 + v2 / 16) :: (v2 % 16 * 16 + v3 / 4) :: (v3 % 4 * 64 + v4)
            :: base64Decode rest
        | none => [v1 * 4 + v2 / 16, v2 % 16 * 16 + v3 / 4]
      | none => [v1 * 4 + v2 / 16]
    | _, _ => []
  | _ => []

/-- Symbolic `publicEncrypt(pem, sessionKey)` with OAEP. -/
def rsaPublicEncrypt (keyMaterial m : List Nat) : List Nat :=
  strBytes (hexEncode keyMaterial) ++ 255 :: m

/-- Symbolic `privateDecrypt(pem, buffer)` with OAEP: recovers the message
exactly when the key material matches; raises (models `none`) otherwise. -/
def rsaPrivateDecrypt (keyMaterial c : List Nat) : Option (List Nat) :=
  let pre := c.takeWhile (fun b => b != 255)
  match c.drop pre.length with
  | 255 :: rest => if pre = strBytes (hexEncode keyMaterial) then some rest else none
  | _ => none

namespace ModderSecureSDK

/-- `encryptSessionKeyWithRsa(sessionKey, rsaPublicKeyPem)`. -/
def encryptSessionKeyWithRsa (sessionKey : List Nat) (rsaPublicKeyPem : List Nat) :
    Except SdkError (List Char) :=
  if sessionKey.length ≠ 32 then .error .invalidRsaKeyLen
  else .ok (base64Encode (rsaPublicEncrypt rsaPublicKeyPem sessionKey))

/-- `decryptSessionKeyWithRsa(encryptedSessionKeyBase64, rsaPrivateKeyPem)`;
the platform's decryption failure becomes the `unwrapFail` error. -/
def decryptSessionKeyWithRsa (encryptedSessionKeyBase64 : List Char)
    (rsaPrivateKeyPem : List Nat) : Except SdkError (List Nat) :=
  match rsaPrivateDecrypt rsaPrivateKeyPem (base64Decode encryptedSessionKeyBase64) with
  | some sk => .ok sk
  | none => .error .unwrapFail

end ModderSecureSDK

/-! ## Access gate (C8, C9) -/

/-- `isValidPseudoKey(pseudoKey)`: plain equality against the server-held
token (`process.env.MODDERSECURE_PREMIUM_PSEUDO_KEY`, modelled as an explicit
optional argument; comparison with an unset variable is `false` for every
string). -/
def isValidPseudoKey (pseudoKey : List Char) (envPseudoKey : Option (List Char)) : Bool :=
  match envPseudoKey with
  | some t => pseudoKey == t
  | none => false

mutual

/-- JS string coercion used by `'...' + requestData.userId` (scalar cases are
exact; arrays join their elements with commas, objects print the standard
object tag). -/
def jsToString : JsVal → List Char
  | .null => "null".data
  | .bool true => "true".data
  | .bool false => "false".data
  | .num i => intToChars i
  | .str s => s
  | .arr xs => jsToStringElems xs
  | .obj _ => "[object Object]".data

def jsToStringElems : List JsVal → List Char
  | [] => []
  | [x] => jsToString x
  | x :: y :: ys => jsToString x ++ ',' :: jsToStringElems (y :: ys)

end

/-- `handlePremiumRequest(pseudoKey, encryptedRequestData, sessionKey)`: the
gate check comes first; on failure nothing is decrypted.  The response
encryption's random draws are explicit arguments, as in `encrypt`. -/
def handlePremiumRequest (pseudoKey : List Char) (encryptedRequestData : List Char)
    (sessionKey : List Nat) (envPseudoKey : Option (List Char)) (iv : List Nat)
    (reqId : List Char) (ts : Int) (newId : List Char) : Except SdkError (List Char) :=
  if isValidPseudoKey pseudoKey envPseudoKey then
    if sessionKey.length ≠ 32 then .error .invalidSessionKey
    else
      match ModderSecureSDK.decrypt encryptedRequestData sessionKey with
      | .error e => .error (.premiumDecryptFail e)
      | .ok requestData =>
        let userId := match getField requestData ("userId".data) with
          | some u => jsToString u
          | none => "undefined".data
        let premiumResponseContent : JsVal := .obj
          [ ("message".data, .str ("Premium data for user ".data ++ userId))
          , ("report".data, .str "Full detailed report here...".data) ]
        (ModderSecureSDK.encrypt premiumResponseContent sessionKey iv reqId ts newId).map
          (fun r => r.mscString)
  else .error .authzFail

/-- Step-count model of the short-circuiting character-by-character string
comparison that the engine's `===` performs: it stops at the first
mismatching character. -/
def eqSteps : List Char → List Char → Nat
  | a :: as, b :: bs => 1 + (if a = b then eqSteps as bs else 0)
  | _, _ => 0

/-- The field requirements `decrypt` enforces on a parsed envelope: a
non-empty string `id`, a non-empty string `new_id`, a string `request` and a
numeric `timestamp`. -/
def StructOk (j : JsVal) : Prop :=
  (∃ s1, ModderSecureSDK.jsStringField (getField j ("id".data)) = some s1 ∧ s1 ≠ [])
  ∧ (∃ s2, ModderSecureSDK.jsStringField (getField j ("new_id".data)) = some s2 ∧ s2 ≠ [])
  ∧ (∃ s3, ModderSecureSDK.jsStringField (getField j ("request".data)) = some s3)
  ∧ (∃ n, ModderSecureSDK.jsNumField (getField j ("timestamp".data)) = some n)

theorem hexVal_hexDigit {n : Nat} (h : n < 16) : hexVal (hexDigit n) = some n := by
  interval_cases n <;> decide

theorem hexDigit_toNat_lt (n : Nat) (h : n < 16) : (hexDigit n).toNat < 128 := by
  interval_cases n <;> decide

theorem hexDigit_ne_colon (n : Nat) (h : n < 16) : hexDigit n ≠ ':' := by
  interval_cases n <;> decide

theorem hexDecode_hexEncode {bs : List Nat} (h : ∀ b ∈ bs, b < 256) :
    hexDecode (hexEncode bs) = bs := by
  induction bs with
  | nil => rfl
  | cons b bs ih =>
    have hb : b < 256 := h b (List.mem_cons_self _ _)
    have hbs : ∀ x ∈ bs, x < 256 := fun x hx => h x (List.mem_cons_of_mem _ hx)
    have h1 : b / 16 % 16 < 16 := Nat.mod_lt _ (by norm_num)
    have h2 : b % 16 < 16 := Nat.mod_lt _ (by norm_num)
    have he : hexEncode (b :: bs)
        = hexDigit (b / 16 % 16) :: hexDigit (b % 16) :: hexEncode bs := by
      simp [hexEncode, hexByte]
    rw [he]
    simp only [hexDecode, hexVal_hexDigit h1, hexVal_hexDigit h2, ih hbs]
    congr 1
    omega

theorem mem_hexEncode_lt {bs : List Nat} {c : Char} (h : c ∈ hexEncode bs) :
    c.toNat < 128 := by
  induction bs with
  | nil => simp [hexEncode] at h
  | cons b bs ih =>
    simp only [hexEncode, hexByte, List.cons_append, List.nil_append,
      List.mem_cons] at h
    rcases h with h | h | h
    · exact h ▸ hexDigit_toNat_lt _ (Nat.mod_lt _ (by norm_num))
    · exact h ▸ hexDigit_toNat_lt _ (Nat.mod_lt _ (by norm_num))
    · exact ih h

theorem colon_not_mem_hexEncode {bs : List Nat} : ':' ∉ hexEncode bs := by
  induction bs with
  | nil => simp [hexEncode]
  | cons b bs ih =>
    simp only [hexEncode, hexByte, List.cons_append, List.nil_append,
      List.mem_cons, not_or]
    refine ⟨?_, ?_, ih⟩
    · exact fun h => hexDigit_ne_colon _ (Nat.mod_lt _ (by norm_num)) h.symm
    · exact fun h => hexDigit_ne_colon _ (Nat.mod_lt _ (by norm_num)) h.symm

theorem splitOnChar_ne_nil (sep : Char) (s : List Char) : splitOnChar sep s ≠ [] := by
  cases s with
  | nil => simp [splitOnChar]
  | cons c rest =>
    simp only [splitOnChar]
    split
    · simp
    · split <;> simp

theorem splitOnChar_no_sep {sep : Char} {s : List Char} (h : sep ∉ s) :
    splitOnChar sep s = [s] := by
  induction s with
  | nil => rfl
  | cons c rest ih =>
    simp only [List.mem_cons, not_or] at h
    have hc : ¬ c = sep := fun e => h.1 e.symm
    simp [splitOnChar, if_neg hc, ih h.2]

theorem splitOnChar_append_sep {sep : Char} {a : List Char} (b : List Char)
    (h : sep ∉ a) : splitOnChar sep (a ++ sep :: b) = a :: splitOnChar sep b := by
  induction a with
  | nil => simp [splitOnChar]
  | cons c rest ih =>
    simp only [List.mem_cons, not_or] at h
    have hc : ¬ c = sep := fun e => h.1 e.symm
    simp only [List.cons_append, splitOnChar, if_neg hc, List.append_eq, ih h.2]

theorem natToDigitsAux_fuel : ∀ fuel, ∀ n, n < fuel → natToDigitsAux fuel n = natToDigits n := by
  intro fuel
  induction fuel using Nat.strong_induction_on with
  | _ fuel ih =>
    intro n hn
    match fuel, hn with
    | f + 1, hn =>
      by_cases h10 : n < 10
      · simp [natToDigitsAux, natToDigits, h10]
      · have hdiv : n / 10 < n := Nat.div_lt_self (by omega) (by norm_num)
        have e1 : natToDigitsAux (f + 1) n = natToDigitsAux f (n / 10) ++ [digitCh (n % 10)] := by
          simp [natToDigitsAux, h10]
        have e2 : natToDigits n = natToDigitsAux n (n / 10) ++ [digitCh (n % 10)] := by
          show natToDigitsAux (n + 1) n = _
          rw [show natToDigitsAux (n + 1) n
              = if n < 10 then [digitCh n] else natToDigitsAux n (n / 10) ++ [digitCh (n % 10)]
            from rfl, if_neg h10]
        rw [e1, e2, ih f (by omega) (n / 10) (by omega), ih n (by omega) (n / 10) hdiv]

theorem natToDigits_eq (n : Nat) :
    natToDigits n
      = if n < 10 then [digitCh n] else natToDigits (n / 10) ++ [digitCh (n % 10)] := by
  by_cases h10 : n < 10
  · simp [natToDigits, natToDigitsAux, h10]
  · have hdiv : n / 10 < n := Nat.div_lt_self (by omega) (by norm_num)
    rw [if_neg h10]
    show natToDigitsAux (n + 1) n = _
    rw [show natToDigitsAux (n + 1) n
        = if n < 10 then [digitCh n] else natToDigitsAux n (n / 10) ++ [digitCh (n % 10)]
      from rfl, if_neg h10, natToDigitsAux_fuel n (n / 10) hdiv]

/-! ## Number printing/parsing round-trip -/

theorem digitCh_toNat {n : Nat} (h : n ≤ 9) : (digitCh n).toNat = 48 + n := by
  interval_cases n <;> decide

theorem isDigitCh_digitCh {n : Nat} (h : n ≤ 9) : isDigitCh (digitCh n) = true := by
  interval_cases n <;> decide

theorem digit_ne_minus {c : Char} (h : isDigitCh c = true) : c ≠ '-' := by
  intro he
  subst he
  simp [isDigitCh] at h

theorem natToDigits_cons (n : Nat) :
    ∃ c cs, natToDigits n = c :: cs ∧ isDigitCh c = true ∧ (1 ≤ n → c ≠ '0')
      ∧ (c = '0' → cs = []) := by
  induction n using Nat.strong_induction_on with
  | _ n ih =>
    by_cases h : n < 10
    · refine ⟨digitCh n, [], ?_, isDigitCh_digitCh (by omega), ?_, fun _ => rfl⟩
      · rw [natToDigits_eq]
        simp [h]
      · intro h1 he
        have := congrArg Char.toNat he
        rw [digitCh_toNat (by omega)] at this
        simp only [show '0'.toNat = 48 from rfl] at this
        omega
    · obtain ⟨c, cs, heq, hd, hz, _⟩ := ih (n / 10) (Nat.div_lt_self (by omega) (by norm_num))
      have hz' : c ≠ '0' := hz (by omega)
      refine ⟨c, cs ++ [digitCh (n % 10)], ?_, hd, fun _ => hz', fun he => absurd he hz'⟩
      rw [natToDigits_eq]
      simp [h, heq]

theorem parseDigits_noDigit {s : List Char} (h : noDigitHead s = true) (acc : Nat) :
    parseDigits s acc = (acc, s) := by
  cases s with
  | nil => rfl
  | cons c rest =>
    simp only [noDigitHead, Bool.not_eq_true'] at h
    simp [parseDigits, h]

theorem parseDigits_natToDigits (n : Nat) : ∀ acc rest,
    parseDigits (natToDigits n ++ rest) acc
      = parseDigits rest (acc * 10 ^ (natToDigits n).length + n) := by
  induction n using Nat.strong_induction_on with
  | _ n ih =>
    intro acc rest
    by_cases h : n < 10
    · rw [natToDigits_eq]
      simp only [if_pos h, List.singleton_append, List.length_singleton]
      simp [parseDigits, isDigitCh_digitCh (show n ≤ 9 by omega),
        digitCh_toNat (show n ≤ 9 by omega)]
      congr 1
      omega
    · rw [natToDigits_eq]
      simp only [if_neg h, List.append_assoc, List.singleton_append, List.length_append,
        List.length_singleton]
      rw [ih (n / 10) (Nat.div_lt_self (by omega) (by norm_num))]
      have h9 : n % 10 ≤ 9 := by omega
      simp [parseDigits, isDigitCh_digitCh h9, digitCh_toNat h9]
      congr 1
      have hdm : 10 * (n / 10) + n % 10 = n := Nat.div_add_mod n 10
      rw [pow_succ]
      ring_nf
      omega

theorem parseNumAfterSign_digits (n : Nat) (neg : Bool) {rest : List Char}
    (h : noDigitHead rest = true) :
    parseNumAfterSign neg (natToDigits n ++ rest)
      = some ((if neg then -(n : Int) else (n : Int)), rest) := by
  obtain ⟨c, cs, heq, hd, hz, hzc⟩ := natToDigits_cons n
  have hstep : parseDigits (cs ++ rest) (c.toNat - 48) = (n, rest) := by
    have h1 : parseDigits (natToDigits n ++ rest) 0 = (n, rest) := by
      rw [parseDigits_natToDigits, parseDigits_noDigit h]
      simp
    rw [heq] at h1
    simpa [parseDigits, hd] using h1
  have hguard : (c == '0' && !(noDigitHead (cs ++ rest))) = false := by
    by_cases hc : c = '0'
    · have : cs = [] := hzc hc
      subst this
      simp [h]
    · simp [beq_eq_false_iff_ne.mpr hc]
  rw [heq]
  simp only [List.cons_append, parseNumAfterSign, hd, if_pos rfl, hguard, Bool.false_eq_true,
    if_false, hstep]
  simp

theorem parseNumber_intToChars (i : Int) {rest : List Char} (h : noDigitHead rest = true) :
    parseNumber (intToChars i ++ rest) = some (i, rest) := by
  cases i with
  | ofNat n =>
    have : intToChars (Int.ofNat n) = natToDigits n := by
      simp [intToChars]
    rw [this]
    obtain ⟨c, cs, heq, hd, _, _⟩ := natToDigits_cons n
    have hcm : ¬ c = '-' := digit_ne_minus hd
    rw [heq]
    simp only [List.cons_append, parseNumber, if_neg hcm]
    rw [← List.cons_append, ← heq, parseNumAfterSign_digits n false h]
    simp
  | negSucc m =>
    have hneg : (Int.negSucc m) < 0 := Int.negSucc_lt_zero m
    have : intToChars (Int.negSucc m) = '-' :: natToDigits (m + 1) := by
      simp only [intToChars, if_pos hneg]
      congr 1
    rw [this]
    simp only [List.cons_append, parseNumber, if_pos rfl]
    rw [parseNumAfterSign_digits (m + 1) true h]
    simp only [if_pos rfl, Option.some.injEq, Prod.mk.injEq, and_true]
    congr 1

/-! ## String literal printing/parsing round-trip -/

theorem psb_quote (rest : List Char) : parseStringBody ('"' :: rest) = some ([], rest) := by
  rw [parseStringBody.eq_def]
  simp

theorem psb_escape {e : Char} (he : ¬ e = 'u') (rest : List Char) :
    parseStringBody ('\\' :: e :: rest)
      = match unescapeChar e with
        | some u => (parseStringBody rest).map fun p => (u :: p.1, p.2)
        | none => none := by
  rw [parseStringBody.eq_def]
  simp [he]

theorem psb_unicode (h1 h2 h3 h4 : Char) (rest : List Char) :
    parseStringBody ('\\' :: 'u' :: h1 :: h2 :: h3 :: h4 :: rest)
      = match hexVal h1, hexVal h2, hexVal h3, hexVal h4 with
        | some a, some b, some c2, some d =>
          (parseStringBody rest).map fun p =>
            (Char.ofNat (4096 * a + 256 * b + 16 * c2 + d) :: p.1, p.2)
        | _, _, _, _ => none := by
  rw [parseStringBody.eq_def]
  simp

theorem psb_plain {c : Char} (h1 : ¬ c = '"') (h2 : ¬ c = '\\') (h3 : ¬ c.toNat < 32)
    (rest : List Char) :
    parseStringBody (c :: rest) = (parseStringBody rest).map fun p => (c :: p.1, p.2) := by
  rw [parseStringBody.eq_def]
  simp [h1, h2, h3]

theorem parseStringBody_escape (s : List Char) (rest : List Char) :
    parseStringBody (escapeString s ++ '"' :: rest) = some (s, rest) := by
  induction s with
  | nil => simpa [escapeString] using psb_quote rest
  | cons c cs ih =>
    by_cases h1 : c = '"'
    · subst h1
      have he : escapeString ('"' :: cs) = '\\' :: '"' :: escapeString cs := by
        rw [escapeString, show escapeChar '"' = ['\\', '"'] from by decide]
        rfl
      rw [he, List.cons_append, List.cons_append, psb_escape (by decide : ¬ ('"' : Char) = 'u')]
      simp [unescapeChar, ih]
    · by_cases h2 : c = '\\'
      · subst h2
        have he : escapeString ('\\' :: cs) = '\\' :: '\\' :: escapeString cs := by
          rw [escapeString, show escapeChar '\\' = ['\\', '\\'] from by decide]
          rfl
        rw [he, List.cons_append, List.cons_append, psb_escape (by decide : ¬ ('\\' : Char) = 'u')]
        simp [unescapeChar, ih]
      · by_cases h3 : c.toNat = 8
        · have hc : Char.ofNat 8 = c := by rw [← h3, Char.ofNat_toNat]
          simp only [escapeString, escapeChar, if_neg h1, if_neg h2, if_pos h3,
            List.cons_append, List.nil_append]
          rw [psb_escape (by decide)]
          simp [unescapeChar, ih]
          exact hc
        · by_cases h4 : c.toNat = 9
          · have hc : Char.ofNat 9 = c := by rw [← h4, Char.ofNat_toNat]
            simp only [escapeString, escapeChar, if_neg h1, if_neg h2, if_neg h3, if_pos h4,
              List.cons_append, List.nil_append]
            rw [psb_escape (by decide)]
            simp [unescapeChar, ih]
            exact hc
          · by_cases h5 : c.toNat = 10
            · have hc : Char.ofNat 10 = c := by rw [← h5, Char.ofNat_toNat]
              simp only [escapeString, escapeChar, if_neg h1, if_neg h2, if_neg h3, if_neg h4,
                if_pos h5, List.cons_append, List.nil_append]
              rw [psb_escape (by decide)]
              simp [unescapeChar, ih]
              exact hc
            · by_cases h6 : c.toNat = 12
              · have hc : Char.ofNat 12 = c := by rw [← h6, Char.ofNat_toNat]
                simp only [escapeString, escapeChar, if_neg h1, if_neg h2, if_neg h3, if_neg h4,
                  if_neg h5, if_pos h6, List.cons_append, List.nil_append]
                rw [psb_escape (by decide)]
                simp [unescapeChar, ih]
                exact hc
              · by_cases h7 : c.toNat = 13
                · have hc : Char.ofNat 13 = c := by rw [← h7, Char.ofNat_toNat]
                  simp only [escapeString, escapeChar, if_neg h1, if_neg h2, if_neg h3,
                    if_neg h4, if_neg h5, if_neg h6, if_pos h7, List.cons_append, List.nil_append]
                  rw [psb_escape (by decide)]
                  simp [unescapeChar, ih]
                  exact hc
                · by_cases h8 : c.toNat < 32
                  · have hhi : c.toNat / 16 < 16 := by omega
                    have hlo : c.toNat % 16 < 16 := by omega
                    simp only [escapeString, escapeChar, if_neg h1, if_neg h2, if_neg h3,
                      if_neg h4, if_neg h5, if_neg h6, if_neg h7, if_pos h8, List.cons_append,
                      List.nil_append]
                    rw [psb_unicode]
                    have hz : hexVal '0' = some 0 := by decide
                    simp only [hexVal_hexDigit hhi, hexVal_hexDigit hlo, hz, ih, Option.map_some]
                    have harg : 4096 * 0 + 256 * 0 + 16 * (c.toNat / 16) + c.toNat % 16
                        = c.toNat := by omega
                    rw [harg, Char.ofNat_toNat]
                    simp
                  · simp only [escapeString, escapeChar, if_neg h1, if_neg h2, if_neg h3,
                      if_neg h4, if_neg h5, if_neg h6, if_neg h7, if_neg h8,
                      List.singleton_append, List.cons_append]
                    rw [psb_plain h1 h2 (by omega)]
                    simp [ih]

/-! ## Printer/parser round-trip for whole values -/

theorem skipWs_not_ws {c : Char} (l : List Char) (h : isJsonWs c = false) :
    skipWs (c :: l) = c :: l := by
  simp [skipWs, h]

theorem noDigitHead_cons (c : Char) (l : List Char) :
    noDigitHead (c :: l) = !(isDigitCh c) := rfl

theorem isDigitCh_bounds {c : Char} (h : isDigitCh c = true) :
    48 ≤ c.toNat ∧ c.toNat ≤ 57 := by
  simpa [isDigitCh, Bool.and_eq_true, decide_eq_true_eq] using h

theorem isDigitCh_facts {c : Char} (h : isDigitCh c = true) :
    isJsonWs c = false ∧ ¬ c = '{' ∧ ¬ c = '[' ∧ ¬ c = '"' ∧ ¬ c = 't' ∧ ¬ c = 'f'
      ∧ ¬ c = 'n' ∧ ¬ c = ']' ∧ ¬ c = '}' := by
  have hb := isDigitCh_bounds h
  refine ⟨?_, ?_, ?_, ?_, ?_, ?_, ?_, ?_, ?_⟩
  · simp only [isJsonWs, Bool.or_eq_false_iff, decide_eq_false_iff_not]
    omega
  all_goals (intro he; rw [he] at hb; revert hb; decide)

theorem numHead_facts {c : Char} (h : c = '-' ∨ isDigitCh c = true) :
    isJsonWs c = false ∧ ¬ c = '{' ∧ ¬ c = '[' ∧ ¬ c = '"' ∧ ¬ c = 't' ∧ ¬ c = 'f'
      ∧ ¬ c = 'n' := by
  rcases h with h | h
  · subst h
    refine ⟨by decide, by decide, by decide, by decide, by decide, by decide, by decide⟩
  · obtain ⟨a, b, c1, d, e, f, g, _, _⟩ := isDigitCh_facts h
    exact ⟨a, b, c1, d, e, f, g⟩

theorem intToChars_head (i : Int) :
    ∃ c t, intToChars i = c :: t ∧ (c = '-' ∨ isDigitCh c = true) := by
  by_cases hneg : i < 0
  · exact ⟨'-', natToDigits (-i).toNat, by simp [intToChars, hneg], Or.inl rfl⟩
  · obtain ⟨c, cs, heq, hd, _, _⟩ := natToDigits_cons i.toNat
    exact ⟨c, cs, by simp [intToChars, hneg, heq], Or.inr hd⟩

theorem jsonStringify_head (v : JsVal) :
    ∃ c t, jsonStringify v = c :: t ∧
      (c = '{' ∨ c = '[' ∨ c = '"' ∨ c = 't' ∨ c = 'f' ∨ c = 'n'
        ∨ c = '-' ∨ isDigitCh c = true) := by
  cases v with
  | null => exact ⟨'n', _, rfl, by decide⟩
  | bool b =>
    cases b
    · exact ⟨'f', _, rfl, by decide⟩
    · exact ⟨'t', _, rfl, by decide⟩
  | num i =>
    obtain ⟨c, t, heq, hcl⟩ := intToChars_head i
    refine ⟨c, t, by simpa [jsonStringify] using heq, ?_⟩
    rcases hcl with h | h
    · exact Or.inr (Or.inr (Or.inr (Or.inr (Or.inr (Or.inr (Or.inl h))))))
    · exact Or.inr (Or.inr (Or.inr (Or.inr (Or.inr (Or.inr (Or.inr h))))))
  | str s => exact ⟨'"', _, rfl, by decide⟩
  | arr xs => exact ⟨'[', _, rfl, by decide⟩
  | obj fs => exact ⟨'{', _, rfl, by decide⟩

theorem valHead_facts {c : Char}
    (h : c = '{' ∨ c = '[' ∨ c = '"' ∨ c = 't' ∨ c = 'f' ∨ c = 'n'
        ∨ c = '-' ∨ isDigitCh c = true) :
    isJsonWs c = false ∧ ¬ c = ']' ∧ ¬ c = '}' := by
  rcases h with h | h | h | h | h | h | h | h
  all_goals first
    | (subst h; exact ⟨by decide, by decide, by decide⟩)
    | (obtain ⟨a, _, _, _, _, _, _, h8, h9⟩ := isDigitCh_facts h; exact ⟨a, h8, h9⟩)

theorem stringifyElems_cons (x : JsVal) (xs : List JsVal) :
    stringifyElems (x :: xs) = jsonStringify x ++ elemsTail xs := by
  cases xs with
  | nil => simp [stringifyElems, elemsTail]
  | cons y ys => simp [stringifyElems, elemsTail]

theorem stringifyMembers_cons (k : List Char) (v : JsVal) (fs : List (List Char × JsVal)) :
    stringifyMembers ((k, v) :: fs)
      = '"' :: (escapeString k ++ '"' :: ':' :: (jsonStringify v ++ membersTail fs)) := by
  cases fs with
  | nil => simp [stringifyMembers, membersTail]
  | cons m fs' => simp [stringifyMembers, membersTail]

theorem sizeV_pos (v : JsVal) : 1 ≤ sizeV v := by
  cases v <;> simp [sizeV]

theorem roundtripAux : ∀ fuel, RTV fuel ∧ RTL fuel ∧ RTM fuel := by
  intro fuel
  induction fuel using Nat.strong_induction_on with
  | _ fuel ih =>
    refine ⟨?_, ?_, ?_⟩
    · intro v rest hs hr
      cases fuel with
      | zero => exact absurd (le_trans (sizeV_pos v) hs) (by omega)
      | succ f =>
        have hL : RTL f := (ih f (Nat.lt_succ_self f)).2.1
        have hM : RTM f := (ih f (Nat.lt_succ_self f)).2.2
        cases v with
        | null => rfl
        | bool b => cases b <;> rfl
        | num i =>
          obtain ⟨c, t, heq, hcl⟩ := intToChars_head i
          obtain ⟨hws, h1, h2, h3, h4, h5, h6⟩ := numHead_facts hcl
          show parseVal (f + 1) (intToChars i ++ rest) = some (.num i, rest)
          rw [heq, List.cons_append]
          simp only [parseVal]
          rw [skipWs_not_ws _ hws]
          simp only [if_neg h1, if_neg h2, if_neg h3, if_neg h4, if_neg h5, if_neg h6]
          rw [← List.cons_append, ← heq, parseNumber_intToChars i hr]
          rfl
        | str s =>
          show parseVal (f + 1) (('"' :: (escapeString s ++ ['"'])) ++ rest) = some (.str s, rest)
          have harr : ('"' :: (escapeString s ++ ['"'])) ++ rest
              = '"' :: (escapeString s ++ '"' :: rest) := by simp
          rw [harr]
          simp only [parseVal]
          rw [skipWs_not_ws _ (by decide)]
          simp only [if_neg (by decide : ¬ ('"' : Char) = '{'),
            if_neg (by decide : ¬ ('"' : Char) = '['), if_pos rfl]
          rw [parseStringBody_escape]
          simp
        | arr xs =>
          cases xs with
          | nil => rfl
          | cons x xs' =>
            have hsL : sizeL (x :: xs') ≤ f := by
              have hv : sizeV (JsVal.arr (x :: xs')) = 1 + sizeL (x :: xs') := rfl
              omega
            obtain ⟨c2, t2, heq2, hcl2⟩ := jsonStringify_head x
            obtain ⟨hws2, hne2, _⟩ := valHead_facts hcl2
            show parseVal (f + 1) (('[' :: (stringifyElems (x :: xs') ++ [']'])) ++ rest)
                = some (.arr (x :: xs'), rest)
            have harr : ('[' :: (stringifyElems (x :: xs') ++ [']'])) ++ rest
                = '[' :: (stringifyElems (x :: xs') ++ ']' :: rest) := by simp
            rw [harr]
            simp only [parseVal]
            rw [skipWs_not_ws _ (by decide)]
            simp only [if_neg (by decide : ¬ ('[' : Char) = '{'), if_pos rfl]
            have hshape : stringifyElems (x :: xs') ++ ']' :: rest
                = c2 :: (t2 ++ (elemsTail xs' ++ ']' :: rest)) := by
              rw [stringifyElems_cons, heq2]
              simp
            rw [hshape, skipWs_not_ws _ hws2]
            simp only [if_neg hne2]
            rw [show c2 :: (t2 ++ (elemsTail xs' ++ ']' :: rest))
                = stringifyElems (x :: xs') ++ ']' :: rest from hshape.symm]
            rw [hL (x :: xs') rest (by simp) hsL]
            simp
        | obj fs =>
          cases fs with
          | nil => rfl
          | cons kv fs' =>
            obtain ⟨k, v⟩ := kv
            have hsM : sizeM ((k, v) :: fs') ≤ f := by
              have hv : sizeV (JsVal.obj ((k, v) :: fs')) = 1 + sizeM ((k, v) :: fs') := rfl
              omega
            show parseVal (f + 1) (('{' :: (stringifyMembers ((k, v) :: fs') ++ ['}'])) ++ rest)
                = some (.obj ((k, v) :: fs'), rest)
            have harr : ('{' :: (stringifyMembers ((k, v) :: fs') ++ ['}'])) ++ rest
                = '{' :: (stringifyMembers ((k, v) :: fs') ++ '}' :: rest) := by simp
            rw [harr]
            simp only [parseVal]
            rw [skipWs_not_ws _ (by decide)]
            simp only [if_pos rfl]
            have hshape : stringifyMembers ((k, v) :: fs') ++ '}' :: rest
                = '"' :: ((escapeString k ++ '"' :: ':' :: (jsonStringify v ++ membersTail fs'))
                    ++ '}' :: rest) := by
              rw [stringifyMembers_cons]
              simp
            rw [hshape, skipWs_not_ws _ (by decide)]
            simp only [if_neg (by decide : ¬ ('"' : Char) = '}')]
            rw [show '"' :: ((escapeString k ++ '"' :: ':' :: (jsonStringify v ++ membersTail fs'))
                  ++ '}' :: rest)
                = stringifyMembers ((k, v) :: fs') ++ '}' :: rest from hshape.symm]
            rw [hM ((k, v) :: fs') rest (by simp) hsM]
            simp
    · intro xs rest hne hsL
      match xs, hne with
      | x :: xs', _ =>
        cases fuel with
        | zero =>
          simp [sizeL] at hsL
        | succ f =>
          have hV : RTV f := (ih f (Nat.lt_succ_self f)).1
          have hL : RTL f := (ih f (Nat.lt_succ_self f)).2.1
          have hsV : sizeV x ≤ f := by
            simp [sizeL] at hsL
            omega
          show parseElems (f + 1) (stringifyElems (x :: xs') ++ ']' :: rest)
              = some (x :: xs', rest)
          rw [stringifyElems_cons, List.append_assoc]
          simp only [parseElems]
          have hnd : noDigitHead (elemsTail xs' ++ ']' :: rest) = true := by
            cases xs' <;> rfl
          rw [hV x _ hsV hnd]
          cases xs' with
          | nil =>
            simp only [elemsTail, List.nil_append]
            rw [skipWs_not_ws _ (by decide)]
            simp only [if_neg (by decide : ¬ (']' : Char) = ','), if_pos rfl]
            simp
          | cons y ys =>
            simp only [elemsTail, List.cons_append]
            rw [skipWs_not_ws _ (by decide)]
            simp only [if_pos rfl]
            have hsL' : sizeL (y :: ys) ≤ f := by
              simp [sizeL] at hsL ⊢
              omega
            rw [hL (y :: ys) rest (by simp) hsL']
            simp
    · intro fs rest hne hsM
      match fs, hne with
      | (k, v) :: fs', _ =>
        cases fuel with
        | zero =>
          simp [sizeM] at hsM
        | succ f =>
          have hV : RTV f := (ih f (Nat.lt_succ_self f)).1
          have hM : RTM f := (ih f (Nat.lt_succ_self f)).2.2
          have hsV : sizeV v ≤ f := by
            simp [sizeM] at hsM
            omega
          show parseMembers (f + 1) (stringifyMembers ((k, v) :: fs') ++ '}' :: rest)
              = some ((k, v) :: fs', rest)
          rw [stringifyMembers_cons]
          have hshape : ('"' :: (escapeString k ++ '"' :: ':'
                  :: (jsonStringify v ++ membersTail fs'))) ++ '}' :: rest
              = '"' :: (escapeString k ++ '"'
                  :: (':' :: (jsonStringify v ++ (membersTail fs' ++ '}' :: rest)))) := by
            simp
          rw [hshape]
          simp only [parseMembers, parseStringBody_escape, if_true]
          rw [skipWs_not_ws _ (by decide)]
          simp only [if_pos rfl]
          have hnd : noDigitHead (membersTail fs' ++ '}' :: rest) = true := by
            cases fs' <;> rfl
          rw [hV v _ hsV hnd]
          cases fs' with
          | nil =>
            simp only [membersTail, List.nil_append]
            rw [skipWs_not_ws _ (by decide)]
            simp only [if_neg (by decide : ¬ ('}' : Char) = ','), if_pos rfl]
            simp
          | cons m fs'' =>
            obtain ⟨m1, m2⟩ := m
            simp only [membersTail, List.cons_append]
            rw [skipWs_not_ws _ (by decide)]
            simp only [if_pos rfl]
            have hskip : skipWs (stringifyMembers ((m1, m2) :: fs'') ++ '}' :: rest)
                = stringifyMembers ((m1, m2) :: fs'') ++ '}' :: rest := by
              rw [stringifyMembers_cons, List.cons_append]
              exact skipWs_not_ws _ (by decide)
            rw [hskip]
            have hsM' : sizeM ((m1, m2) :: fs'') ≤ f := by
              simp [sizeM] at hsM ⊢
              omega
            rw [hM ((m1, m2) :: fs'') rest (by simp) hsM']
            simp

mutual

theorem sizeV_le_length (v : JsVal) : sizeV v ≤ (jsonStringify v).length := by
  cases v with
  | null => decide
  | bool b => cases b <;> decide
  | num i =>
    obtain ⟨c, t, heq, _⟩ := intToChars_head i
    simp [sizeV, jsonStringify, heq]
  | str s => simp [sizeV, jsonStringify]
  | arr xs =>
    have h := sizeL_le_length xs
    simp only [sizeV, jsonStringify, List.length_cons, List.length_append,
      List.length_singleton]
    omega
  | obj fs =>
    have h := sizeM_le_length fs
    simp only [sizeV, jsonStringify, List.length_cons, List.length_append,
      List.length_singleton]
    omega

theorem sizeL_le_length (xs : List JsVal) : sizeL xs ≤ (stringifyElems xs).length + 1 := by
  cases xs with
  | nil => simp [sizeL, stringifyElems]
  | cons x xs' =>
    cases xs' with
    | nil =>
      have h := sizeV_le_length x
      simp only [sizeL, stringifyElems]
      omega
    | cons y ys =>
      have h1 := sizeV_le_length x
      have h2 := sizeL_le_length (y :: ys)
      have h3 : sizeL (y :: ys) = 1 + sizeV y + sizeL ys := rfl
      simp only [sizeL, stringifyElems, List.length_append, List.length_cons]
      omega

theorem sizeM_le_length (fs : List (List Char × JsVal)) :
    sizeM fs ≤ (stringifyMembers fs).length + 1 := by
  cases fs with
  | nil => simp [sizeM, stringifyMembers]
  | cons kv fs' =>
    obtain ⟨k, v⟩ := kv
    cases fs' with
    | nil =>
      have h := sizeV_le_length v
      simp only [sizeM, sizeL, stringifyMembers, List.length_cons, List.length_append,
        List.length_singleton]
      omega
    | cons m fs'' =>
      have h1 := sizeV_le_length v
      have h2 := sizeM_le_length (m :: fs'')
      have h3 : sizeM (m :: fs'') = 1 + sizeV m.2 + sizeM fs'' := by
        obtain ⟨m1, m2⟩ := m
        rfl
      simp only [sizeM, sizeL, stringifyMembers, List.length_cons, List.length_append,
        List.length_singleton]
      omega

end

/-- `JSON.parse (JSON.stringify v) = v` on the modelled fragment. -/
theorem jsonParse_stringify (v : JsVal) : jsonParse (jsonStringify v) = some v := by
  have h1 : sizeV v ≤ (jsonStringify v).length + 1 :=
    le_trans (sizeV_le_length v) (by omega)
  have h2 := (roundtripAux ((jsonStringify v).length + 1)).1 v [] h1 rfl
  rw [List.append_nil] at h2
  simp only [jsonParse, h2]
  rfl

theorem ksByte_lt (key nonce : List Nat) (i : Nat) : ksByte key nonce i < 256 :=
  Nat.mod_lt _ (by norm_num)

theorem unmaskAux_maskAux (key nonce : List Nat) :
    ∀ i bs, (∀ b ∈ bs, b < 256) → unmaskAux key nonce i (maskAux key nonce i bs) = bs := by
  intro i bs
  induction bs generalizing i with
  | nil => intro _; rfl
  | cons b bs ih =>
    intro h
    have hb : b < 256 := h b (List.mem_cons_self _ _)
    have hks := ksByte_lt key nonce i
    simp only [maskAux, unmaskAux, ih (i + 1) (fun x hx => h x (List.mem_cons_of_mem _ hx)),
      List.cons.injEq, and_true]
    omega

theorem maskAux_lt (key nonce : List Nat) :
    ∀ i bs, ∀ b ∈ maskAux key nonce i bs, b < 256 := by
  intro i bs
  induction bs generalizing i with
  | nil => simp [maskAux]
  | cons b bs ih =>
    simp only [maskAux, List.mem_cons]
    rintro x (rfl | hx)
    · exact Nat.mod_lt _ (by norm_num)
    · exact ih (i + 1) x hx

theorem gcmDecrypt_gcmEncrypt {key nonce pt : List Nat} (h : ∀ b ∈ pt, b < 256) :
    gcmDecrypt key nonce (gcmEncrypt key nonce pt).1 (gcmEncrypt key nonce pt).2 = some pt := by
  simp only [gcmEncrypt, gcmDecrypt]
  simp [unmaskAux_maskAux key nonce 0 pt h]

theorem tagOf_inj_ct {key nonce ct ct' : List Nat} (h : tagOf key nonce ct = tagOf key nonce ct') :
    ct = ct' := by
  simp only [tagOf, List.cons.injEq, List.append_cancel_left_eq, true_and] at h
  exact h

theorem tagOf_inj_key {key key' nonce nonce' ct ct' : List Nat}
    (h : tagOf key nonce ct = tagOf key' nonce' ct') : key = key' := by
  simp only [tagOf, List.cons.injEq] at h
  obtain ⟨hlen, happ⟩ := h
  exact List.append_inj_left happ hlen

theorem encrypt_mscString (data : JsVal) (sessionKey iv : List Nat)
    (reqId : List Char) (ts : Int) (newId : List Char) (h : sessionKey.length = 32) :
    ModderSecureSDK.encrypt data sessionKey iv reqId ts newId
      = .ok (EncryptResult.mk (mkEnvelope (bundleOf sessionKey iv data).reverse newId reqId ts)
          reqId ts) := by
  rw [ModderSecureSDK.encrypt, if_neg (by omega)]
  rfl

theorem isEmpty_false_of_ne_nil {l : List Char} (h : l ≠ []) : l.isEmpty = false := by
  cases l with
  | nil => exact absurd rfl h
  | cons a t => rfl

theorem decryptParsed_env (idStr newId reqId : List Char) (ts : Int) (k : List Nat)
    (hid : idStr ≠ []) (hnid : newId ≠ []) :
    ModderSecureSDK.decryptParsed (.obj
      [ ("id".data, .str idStr)
      , ("new_id".data, .str newId)
      , ("is_secured".data, .bool true)
      , ("request".data, .str reqId)
      , ("timestamp".data, .num ts) ]) k
      = match splitOnChar ':' idStr.reverse with
        | [p0, p1, p2] =>
          match gcmDecrypt k (hexDecode p0) (hexDecode p1) (hexDecode p2) with
          | some ptBytes =>
            match jsonParse (bytesToChars ptBytes) with
            | some w => .ok w
            | none => .error .authFail
          | none => .error .authFail
        | _ => .error .formatBundle := by
  cases idStr with
  | nil => exact absurd rfl hid
  | cons a l =>
    cases newId with
    | nil => exact absurd rfl hnid
    | cons b m => rfl

theorem decrypt_mkEnvelope (idStr newId reqId : List Char) (ts : Int) (k : List Nat)
    (hk : k.length = 32) (hid : idStr ≠ []) (hnid : newId ≠ []) :
    ModderSecureSDK.decrypt (mkEnvelope idStr newId reqId ts) k
      = match splitOnChar ':' idStr.reverse with
        | [p0, p1, p2] =>
          match gcmDecrypt k (hexDecode p0) (hexDecode p1) (hexDecode p2) with
          | some ptBytes =>
            match jsonParse (bytesToChars ptBytes) with
            | some w => .ok w
            | none => .error .authFail
          | none => .error .authFail
        | _ => .error .formatBundle := by
  have henv : mkEnvelope idStr newId reqId ts
      = 'm' :: 's' :: 'c' :: jsonStringify (.obj
        [ ("id".data, .str idStr)
        , ("new_id".data, .str newId)
        , ("is_secured".data, .bool true)
        , ("request".data, .str reqId)
        , ("timestamp".data, .num ts) ]) := rfl
  have hstr : jsonStringify (JsVal.obj
        [ ("id".data, .str idStr)
        , ("new_id".data, .str newId)
        , ("is_secured".data, .bool true)
        , ("request".data, .str reqId)
        , ("timestamp".data, .num ts) ])
      = '{' :: (stringifyMembers
        [ ("id".data, .str idStr)
        , ("new_id".data, .str newId)
        , ("is_secured".data, .bool true)
        , ("request".data, .str reqId)
        , ("timestamp".data, .num ts) ] ++ ['}']) := rfl
  rw [ModderSecureSDK.decrypt, if_neg (by omega), henv]
  have hpre : ('m' :: 's' :: 'c' :: jsonStringify (JsVal.obj
        [ ("id".data, .str idStr)
        , ("new_id".data, .str newId)
        , ("is_secured".data, .bool true)
        , ("request".data, .str reqId)
        , ("timestamp".data, .num ts) ])).take 4 = "msc\x7b".data
      ∧ ('m' :: 's' :: 'c' :: jsonStringify (JsVal.obj
        [ ("id".data, .str idStr)
        , ("new_id".data, .str newId)
        , ("is_secured".data, .bool true)
        , ("request".data, .str reqId)
        , ("timestamp".data, .num ts) ])).getLast? = some '}' := by
    constructor
    · rw [hstr]
      rfl
    · rw [hstr]
      rw [show 'm' :: 's' :: 'c' :: '{' :: (stringifyMembers
          [ ("id".data, .str idStr)
          , ("new_id".data, .str newId)
          , ("is_secured".data, .bool true)
          , ("request".data, .str reqId)
          , ("timestamp".data, .num ts) ] ++ ['}'])
        = ('m' :: 's' :: 'c' :: '{' :: stringifyMembers
          [ ("id".data, .str idStr)
          , ("new_id".data, .str newId)
          , ("is_secured".data, .bool true)
          , ("request".data, .str reqId)
          , ("timestamp".data, .num ts) ]) ++ ['}'] from by simp]
      exact List.getLast?_concat _
  rw [List.isEmpty_cons, if_neg (by simp), if_neg (not_not_intro hpre)]
  rw [show ('m' :: 's' :: 'c' :: jsonStringify (JsVal.obj
        [ ("id".data, .str idStr)
        , ("new_id".data, .str newId)
        , ("is_secured".data, .bool true)
        , ("request".data, .str reqId)
        , ("timestamp".data, .num ts) ])).drop 3
      = jsonStringify (JsVal.obj
        [ ("id".data, .str idStr)
        , ("new_id".data, .str newId)
        , ("is_secured".data, .bool true)
        , ("request".data, .str reqId)
        , ("timestamp".data, .num ts) ]) from rfl]
  rw [jsonParse_stringify]
  exact decryptParsed_env idStr newId reqId ts k hid hnid

theorem split_bundle (a b c : List Char) (ha : ':' ∉ a) (hb : ':' ∉ b) (hc : ':' ∉ c) :
    splitOnChar ':' (a ++ ':' :: (b ++ ':' :: c)) = [a, b, c] := by
  rw [splitOnChar_append_sep _ ha, splitOnChar_append_sep _ hb, splitOnChar_no_sep hc]

theorem tagOf_lt {k n ct : List Nat} (hk : k.length < 256) (hn : n.length < 256)
    (hkb : ∀ b ∈ k, b < 256) (hnb : ∀ b ∈ n, b < 256) (hct : ∀ b ∈ ct, b < 256) :
    ∀ b ∈ tagOf k n ct, b < 256 := by
  intro b hb
  simp only [tagOf, List.mem_cons, List.mem_append] at hb
  rcases hb with rfl | (h | rfl | h | h)
  · exact hk
  · exact hkb b h
  · exact hn
  · exact hnb b h
  · exact hct b h

theorem strBytes_lt {s : List Char} (h : ∀ c ∈ s, c.toNat < 128) :
    ∀ b ∈ strBytes s, b < 256 := by
  intro b hb
  simp only [strBytes, List.mem_map] at hb
  obtain ⟨c, hc, rfl⟩ := hb
  exact lt_trans (h c hc) (by norm_num)

theorem bytesToChars_strBytes (s : List Char) : bytesToChars (strBytes s) = s := by
  simp only [bytesToChars, strBytes, List.map_map]
  have : (Char.ofNat ∘ Char.toNat) = id := by
    funext c
    exact Char.ofNat_toNat c
  rw [this, List.map_id]

theorem bundle_reverse_ne_nil (sessionKey iv : List Nat) (data : JsVal) :
    (bundleOf sessionKey iv data).reverse ≠ [] := by
  simp [bundleOf]

/-- **C1.**  For every structured value `v` (over the modelled ASCII/integer
JSON fragment) and every 32-byte session key `k`, decrypting the envelope
produced by encrypting `v` under `k` with the same key reproduces `v`
exactly: `decrypt(encrypt(v, k).mscString, k) = v`. -/
theorem C1_roundtrip (v : JsVal) (k iv : List Nat) (reqId : List Char) (ts : Int)
    (newId : List Char)
    (hk : k.length = 32) (hkb : ∀ b ∈ k, b < 256)
    (hiv : iv.length = 12) (hivb : ∀ b ∈ iv, b < 256)
    (hv : ∀ c ∈ jsonStringify v, c.toNat < 128)
    (hnid : newId ≠ []) :
    (ModderSecureSDK.encrypt v k iv reqId ts newId).bind
        (fun r => ModderSecureSDK.decrypt r.mscString k) = .ok v := by
  rw [encrypt_mscString v k iv reqId ts newId hk]
  show ModderSecureSDK.decrypt
      (mkEnvelope (bundleOf k iv v).reverse newId reqId ts) k = .ok v
  rw [decrypt_mkEnvelope _ _ _ _ _ hk (bundle_reverse_ne_nil _ _ _) hnid]
  have hpt : ∀ b ∈ strBytes (jsonStringify v), b < 256 := strBytes_lt hv
  have hct : ∀ b ∈ (gcmEncrypt k iv (strBytes (jsonStringify v))).1, b < 256 :=
    maskAux_lt k iv 0 _
  have htag : ∀ b ∈ (gcmEncrypt k iv (strBytes (jsonStringify v))).2, b < 256 :=
    tagOf_lt (by omega) (by omega) hkb hivb hct
  simp only [bundleOf, List.reverse_reverse,
    split_bundle _ _ _ colon_not_mem_hexEncode colon_not_mem_hexEncode colon_not_mem_hexEncode,
    hexDecode_hexEncode hivb, hexDecode_hexEncode hct, hexDecode_hexEncode htag,
    gcmDecrypt_gcmEncrypt hpt, bytesToChars_strBytes, jsonParse_stringify]

/-- Concrete instantiation of the C1 round-trip. -/
theorem C1_roundtrip_witness :
    (ModderSecureSDK.encrypt (JsVal.obj [("userId".data, JsVal.num 123)]) (List.range 32)
        (List.range 12) "aabb".data 1700000000000 "nid0".data).bind
      (fun r => ModderSecureSDK.decrypt r.mscString (List.range 32))
      = .ok (JsVal.obj [("userId".data, JsVal.num 123)]) :=
  C1_roundtrip _ _ _ _ _ _ (by decide) (by decide) (by decide) (by decide) (by decide)
    (by decide)

theorem bundleOf_eq (sessionKey iv : List Nat) (data : JsVal) :
    bundleOf sessionKey iv data
      = hexEncode iv ++ ':' :: (ctHexOf sessionKey iv data ++ ':' :: tagHexOf sessionKey iv data) :=
  rfl

theorem decrypt_tampered (iv : List Nat) (ctHex tagHex newId reqId : List Char) (ts : Int)
    (k : List Nat) (hk : k.length = 32) (hivb : ∀ b ∈ iv, b < 256)
    (hct : ':' ∉ ctHex) (htag : ':' ∉ tagHex) (hnid : newId ≠ []) :
    ModderSecureSDK.decrypt (tamperedEnvelope iv ctHex tagHex newId reqId ts) k
      = match gcmDecrypt k iv (hexDecode ctHex) (hexDecode tagHex) with
        | some ptBytes =>
          match jsonParse (bytesToChars ptBytes) with
          | some w => .ok w
          | none => .error .authFail
        | none => .error .authFail := by
  rw [tamperedEnvelope, decrypt_mkEnvelope _ _ _ _ _ hk (by simp) hnid]
  simp only [List.reverse_reverse,
    split_bundle _ _ _ colon_not_mem_hexEncode hct htag, hexDecode_hexEncode hivb]

theorem colon_not_mem_set {l : List Char} {i : Nat} {c : Char}
    (hl : ':' ∉ l) (hc : ¬ c = ':') : ':' ∉ l.set i c := by
  intro hmem
  rcases List.mem_or_eq_of_mem_set hmem with h | h
  · exact hl h
  · exact hc h.symm

theorem split_set_colon {l : List Char} {i : Nat} (hl : ':' ∉ l) (hi : i < l.length)
    (a c : List Char) (ha : ':' ∉ a) (hc : ':' ∉ c) :
    splitOnChar ':' (a ++ ':' :: (l.set i ':' ++ ':' :: c))
      = [a, l.take i, l.drop (i + 1), c] := by
  rw [List.set_eq_take_cons_drop _ hi]
  rw [show (l.take i ++ ':' :: l.drop (i + 1)) ++ ':' :: c
      = l.take i ++ ':' :: (l.drop (i + 1) ++ ':' :: c) from by simp]
  rw [splitOnChar_append_sep _ ha,
    splitOnChar_append_sep _ (fun h => hl (List.take_subset _ _ h)),
    splitOnChar_append_sep _ (fun h => hl (List.drop_subset _ _ h)),
    splitOnChar_no_sep hc]

/-- A tampered bundle whose ciphertext field has a colon written into it
splits into four parts, so `decrypt` rejects it at the split check with the
bundle-format error — before any cryptographic operation. -/
theorem decrypt_tampered_colon (iv : List Nat) (ctHex tagHex newId reqId : List Char)
    (ts : Int) (k : List Nat) (hk : k.length = 32) (hct : ':' ∉ ctHex) (htag : ':' ∉ tagHex)
    (hnid : newId ≠ []) {i : Nat} (hi : i < ctHex.length) :
    ModderSecureSDK.decrypt (tamperedEnvelope iv (ctHex.set i ':') tagHex newId reqId ts) k
      = .error .formatBundle := by
  rw [tamperedEnvelope, decrypt_mkEnvelope _ _ _ _ _ hk (by simp) hnid]
  rw [List.reverse_reverse]
  rw [split_set_colon hct hi _ _ colon_not_mem_hexEncode htag]

/-- **C2 (amended).**  For an envelope produced by `encrypt` under key `k`:
replacing any single character of the ciphertext hex field of the bundle
either makes `decrypt` fail with the bundle `FormatError` (when the written
character is the field separator `':'`, splitting the bundle into four
parts), or returns the original plaintext unchanged (when the altered field
still hex-decodes to the genuine ciphertext bytes, e.g. a hex letter-case
flip), or fails with `AuthenticationError` (whenever the altered field
decodes to different bytes — a changed hex digit or a truncating invalid
character); it never returns a different plaintext.  Decrypting the genuine
envelope with any other 32-byte key fails with `AuthenticationError`.  The
supplied tag stays the full genuine one throughout, so the ideal tag
comparison matches the platform on every input the theorem touches;
alterations of the tag field itself are outside the claim (the platform
accepts NIST-valid truncated prefixes and throws uncaught length errors at
`setAuthTag`, behaviours the injective-tag idealisation cannot express). -/
theorem C2_tamper (v : JsVal) (k iv : List Nat) (reqId : List Char) (ts : Int)
    (newId : List Char)
    (hk : k.length = 32) (hkb : ∀ b ∈ k, b < 256)
    (hiv : iv.length = 12) (hivb : ∀ b ∈ iv, b < 256)
    (hv : ∀ c ∈ jsonStringify v, c.toNat < 128) (hnid : newId ≠ []) :
    (ModderSecureSDK.encrypt v k iv reqId ts newId
      = .ok (EncryptResult.mk
          (tamperedEnvelope iv (ctHexOf k iv v) (tagHexOf k iv v) newId reqId ts) reqId ts))
    ∧ (∀ i c, i < (ctHexOf k iv v).length →
        (c = ':' →
          ModderSecureSDK.decrypt
            (tamperedEnvelope iv ((ctHexOf k iv v).set i c) (tagHexOf k iv v) newId reqId ts) k
            = .error .formatBundle)
      ∧ (¬ c = ':' →
          hexDecode ((ctHexOf k iv v).set i c)
              = (gcmEncrypt k iv (strBytes (jsonStringify v))).1 →
          ModderSecureSDK.decrypt
            (tamperedEnvelope iv ((ctHexOf k iv v).set i c) (tagHexOf k iv v) newId reqId ts) k
            = .ok v)
      ∧ (¬ c = ':' →
          hexDecode ((ctHexOf k iv v).set i c)
              ≠ (gcmEncrypt k iv (strBytes (jsonStringify v))).1 →
          ModderSecureSDK.decrypt
            (tamperedEnvelope iv ((ctHexOf k iv v).set i c) (tagHexOf k iv v) newId reqId ts) k
            = .error .authFail))
    ∧ SdkError.formatBundle.isFormatError = true
    ∧ SdkError.authFail.isAuthenticationError = true
    ∧ (∀ k', k'.length = 32 → k' ≠ k →
        ModderSecureSDK.decrypt
          (tamperedEnvelope iv (ctHexOf k iv v) (tagHexOf k iv v) newId reqId ts) k'
          = .error .authFail) := by
  have hpt : ∀ b ∈ strBytes (jsonStringify v), b < 256 := strBytes_lt hv
  have hctb : ∀ b ∈ (gcmEncrypt k iv (strBytes (jsonStringify v))).1, b < 256 :=
    maskAux_lt k iv 0 _
  have htagb : ∀ b ∈ (gcmEncrypt k iv (strBytes (jsonStringify v))).2, b < 256 :=
    tagOf_lt (by omega) (by omega) hkb hivb hctb
  have hdecct : hexDecode (ctHexOf k iv v) = (gcmEncrypt k iv (strBytes (jsonStringify v))).1 :=
    hexDecode_hexEncode hctb
  have hdectag : hexDecode (tagHexOf k iv v) = (gcmEncrypt k iv (strBytes (jsonStringify v))).2 :=
    hexDecode_hexEncode htagb
  have htagof : (gcmEncrypt k iv (strBytes (jsonStringify v))).2
      = tagOf k iv (gcmEncrypt k iv (strBytes (jsonStringify v))).1 := rfl
  have hcolct : ':' ∉ ctHexOf k iv v := colon_not_mem_hexEncode
  have hcoltag : ':' ∉ tagHexOf k iv v := colon_not_mem_hexEncode
  refine ⟨?_, ?_, rfl, rfl, ?_⟩
  · rw [encrypt_mscString v k iv reqId ts newId hk]
    rfl
  · intro i c hi
    refine ⟨?_, ?_, ?_⟩
    · intro hc
      subst hc
      exact decrypt_tampered_colon iv _ _ newId reqId ts k hk hcolct hcoltag hnid hi
    · intro hc hdec
      have hset : ':' ∉ (ctHexOf k iv v).set i c :=
        colon_not_mem_set colon_not_mem_hexEncode hc
      rw [decrypt_tampered iv _ _ newId reqId ts k hk hivb hset hcoltag hnid]
      simp only [hdec, hdectag, gcmDecrypt_gcmEncrypt hpt, bytesToChars_strBytes,
        jsonParse_stringify]
    · intro hc hdec
      have hset : ':' ∉ (ctHexOf k iv v).set i c :=
        colon_not_mem_set colon_not_mem_hexEncode hc
      rw [decrypt_tampered iv _ _ newId reqId ts k hk hivb hset hcoltag hnid]
      rw [hdectag]
      have hne : (gcmEncrypt k iv (strBytes (jsonStringify v))).2
          ≠ tagOf k iv (hexDecode ((ctHexOf k iv v).set i c)) := by
        rw [htagof]
        intro he
        exact hdec (tagOf_inj_ct he).symm
      rw [gcmDecrypt, if_neg hne]
  · intro k' hk' hne
    rw [decrypt_tampered iv _ _ newId reqId ts k' hk' hivb hcolct hcoltag hnid]
    rw [hdecct, hdectag]
    have hne2 : (gcmEncrypt k iv (strBytes (jsonStringify v))).2
        ≠ tagOf k' iv (gcmEncrypt k iv (strBytes (jsonStringify v))).1 := by
      rw [htagof]
      intro he
      exact hne (tagOf_inj_key he).symm
    rw [gcmDecrypt, if_neg hne2]

set_option maxRecDepth 100000 in
/-- **C2 counterexample.**  Changing the single byte at index 2 of the
ciphertext hex field from `'a'` (0x61) to `'A'` (0x41) — one flipped bit —
produces an envelope that `decrypt` accepts, returning the original
plaintext, because Node's hex decoding is case-insensitive; the claim's
demand that every single-byte change of the ciphertext field fail with
`AuthenticationError` is therefore false on the code. -/
theorem C2_counterexample :
    (ctHexOf (List.range 32) (List.range 12) JsVal.null).get? 2 = some 'a'
    ∧ (ctHexOf (List.range 32) (List.range 12) JsVal.null).set 2 'A'
        ≠ ctHexOf (List.range 32) (List.range 12) JsVal.null
    ∧ ModderSecureSDK.decrypt
        (tamperedEnvelope (List.range 12)
          ((ctHexOf (List.range 32) (List.range 12) JsVal.null).set 2 'A')
          (tagHexOf (List.range 32) (List.range 12) JsVal.null) "n".data "r".data 0)
        (List.range 32)
      = .ok JsVal.null := by
  refine ⟨by decide, by decide, ?_⟩
  rfl

/-- Concrete instantiation of the amended C2 theorem: an altered ciphertext
hex character that changes the decoded bytes makes decryption fail with the
authentication error. -/
theorem C2_tamper_witness :
    ModderSecureSDK.decrypt
      (tamperedEnvelope (List.range 12)
        ((ctHexOf (List.range 32) (List.range 12) JsVal.null).set 2 'f')
        (tagHexOf (List.range 32) (List.range 12) JsVal.null)
        "n".data "r".data 0) (List.range 32)
      = .error .authFail :=
  (((C2_tamper JsVal.null (List.range 32) (List.range 12) "r".data 0 "n".data
      (by decide) (by decide) (by decide) (by decide) (by decide) (by decide)).2.1 2 'f'
    (by decide)).2.2 (by decide)) (by decide)

theorem envelopeField_mk_id (idStr newId reqId : List Char) (ts : Int) :
    envelopeField (mkEnvelope idStr newId reqId ts) ("id".data) = some (.str idStr) := by
  show (jsonParse (jsonStringify (JsVal.obj
      [ ("id".data, .str idStr)
      , ("new_id".data, .str newId)
      , ("is_secured".data, .bool true)
      , ("request".data, .str reqId)
      , ("timestamp".data, .num ts) ]))).bind (fun j => getField j ("id".data))
    = some (.str idStr)
  rw [jsonParse_stringify]
  rfl

theorem envelopeField_mk_newId (idStr newId reqId : List Char) (ts : Int) :
    envelopeField (mkEnvelope idStr newId reqId ts) ("new_id".data) = some (.str newId) := by
  show (jsonParse (jsonStringify (JsVal.obj
      [ ("id".data, .str idStr)
      , ("new_id".data, .str newId)
      , ("is_secured".data, .bool true)
      , ("request".data, .str reqId)
      , ("timestamp".data, .num ts) ]))).bind (fun j => getField j ("new_id".data))
    = some (.str newId)
  rw [jsonParse_stringify]
  rfl

/-- **C3 (amended).**  Every envelope produced by `encrypt` carries, in its
`id` field, the character-reversed form of the ciphertext bundle
`hex(nonce):hex(ciphertext):hex(tag)` (the decoder reverses it back before
splitting). -/
theorem C3_id_reversed (v : JsVal) (k iv : List Nat) (reqId : List Char) (ts : Int)
    (newId : List Char) (hk : k.length = 32) :
    (ModderSecureSDK.encrypt v k iv reqId ts newId).map
        (fun r => envelopeField r.mscString ("id".data))
      = .ok (some (.str (bundleOf k iv v).reverse)) := by
  rw [encrypt_mscString v k iv reqId ts newId hk]
  show Except.ok (envelopeField (mkEnvelope (bundleOf k iv v).reverse newId reqId ts) ("id".data))
    = .ok (some (.str (bundleOf k iv v).reverse))
  rw [envelopeField_mk_id]

/-- Concrete instantiation of the amended C3 theorem. -/
theorem C3_id_reversed_witness :
    (ModderSecureSDK.encrypt JsVal.null (List.range 32) (List.range 12) "r".data 0
        "n".data).map (fun r => envelopeField r.mscString ("id".data))
      = .ok (some (.str (bundleOf (List.range 32) (List.range 12) JsVal.null).reverse)) :=
  C3_id_reversed JsVal.null (List.range 32) (List.range 12) "r".data 0 "n".data (by decide)

set_option maxRecDepth 100000 in
/-- **C3 counterexample.**  On a concrete encryption the `id` field holds the
reversed bundle text, which differs from the claimed un-reversed
`hex(nonce):hex(ciphertext):hex(tag)` form. -/
theorem C3_counterexample :
    (ModderSecureSDK.encrypt JsVal.null (List.range 32) (List.range 12) "r".data 0
        "n".data).map (fun r => envelopeField r.mscString ("id".data))
      = .ok (some (.str (bundleOf (List.range 32) (List.range 12) JsVal.null).reverse))
    ∧ (bundleOf (List.range 32) (List.range 12) JsVal.null).reverse
        ≠ bundleOf (List.range 32) (List.range 12) JsVal.null := by
  refine ⟨?_, by decide⟩
  rfl

/-- `decrypt` on any `msc` + JSON-object input reduces to the parsed-object
body. -/
theorem decrypt_msc_obj (fs : List (List Char × JsVal)) (k : List Nat) (hk : k.length = 32) :
    ModderSecureSDK.decrypt ("msc".data ++ jsonStringify (.obj fs)) k
      = ModderSecureSDK.decryptParsed (.obj fs) k := by
  have hstr : jsonStringify (JsVal.obj fs) = '{' :: (stringifyMembers fs ++ ['}']) := rfl
  rw [ModderSecureSDK.decrypt, if_neg (by omega)]
  have henv : "msc".data ++ jsonStringify (JsVal.obj fs)
      = 'm' :: 's' :: 'c' :: jsonStringify (JsVal.obj fs) := rfl
  rw [henv]
  have hpre : ('m' :: 's' :: 'c' :: jsonStringify (JsVal.obj fs)).take 4 = "msc\x7b".data
      ∧ ('m' :: 's' :: 'c' :: jsonStringify (JsVal.obj fs)).getLast? = some '}' := by
    constructor
    · rw [hstr]
      rfl
    · rw [hstr]
      rw [show 'm' :: 's' :: 'c' :: '{' :: (stringifyMembers fs ++ ['}'])
          = ('m' :: 's' :: 'c' :: '{' :: stringifyMembers fs) ++ ['}'] from by simp]
      exact List.getLast?_concat _
  rw [List.isEmpty_cons, if_neg (by simp), if_neg (not_not_intro hpre)]
  rw [show ('m' :: 's' :: 'c' :: jsonStringify (JsVal.obj fs)).drop 3
      = jsonStringify (JsVal.obj fs) from rfl]
  rw [jsonParse_stringify]

/-- **C10.**  `decrypt` additionally requires a non-empty string `new_id`
field: an envelope carrying only the wire format's minimum keys is rejected
with a structure error, while `encrypt` emits a `new_id` field in every
envelope it produces. -/
theorem C10_newId (idStr reqId : List Char) (ts : Int) (k : List Nat)
    (hk : k.length = 32) (hid : idStr ≠ []) :
    ModderSecureSDK.decrypt (mkEnvelopeNoNewId idStr reqId ts) k
        = .error .structureNewId
    ∧ SdkError.structureNewId.isStructureError = true
    ∧ (∀ (v : JsVal) (iv : List Nat) (reqId2 newId : List Char) (ts2 : Int),
        (ModderSecureSDK.encrypt v k iv reqId2 ts2 newId).map
            (fun r => envelopeField r.mscString ("new_id".data))
          = .ok (some (.str newId))) := by
  refine ⟨?_, rfl, ?_⟩
  · rw [mkEnvelopeNoNewId, decrypt_msc_obj _ _ hk]
    cases idStr with
    | nil => exact absurd rfl hid
    | cons a l => rfl
  · intro v iv reqId2 newId ts2
    rw [encrypt_mscString v k iv reqId2 ts2 newId hk]
    show Except.ok
        (envelopeField (mkEnvelope (bundleOf k iv v).reverse newId reqId2 ts2) ("new_id".data))
      = .ok (some (.str newId))
    rw [envelopeField_mk_newId]

/-- Concrete instantiation of C10. -/
theorem C10_newId_witness :
    ModderSecureSDK.decrypt (mkEnvelopeNoNewId "aa".data "r".data 0) (List.range 32)
        = .error .structureNewId ∧
      (ModderSecureSDK.encrypt JsVal.null (List.range 32) (List.range 12) "r".data 0
          "n".data).map (fun r => envelopeField r.mscString ("new_id".data))
        = .ok (some (.str "n".data)) := by
  have h := C10_newId "aa".data "r".data 0 (List.range 32) (by decide) (by decide)
  exact ⟨h.1, h.2.2 JsVal.null (List.range 12) "r".data "n".data 0⟩

/-! ## Header metadata sealing (C6) -/

theorem scryptSync_length (secret : List Char) (salt : List Nat) (n : Nat) :
    (scryptSync secret salt n).length = n := by
  simp [scryptSync]

theorem scryptSync_lt (secret : List Char) (salt : List Nat) (n : Nat) :
    ∀ b ∈ scryptSync secret salt n, b < 256 := by
  intro b hb
  simp only [scryptSync, List.mem_map] at hb
  obtain ⟨i, _, rfl⟩ := hb
  exact Nat.mod_lt _ (by norm_num)

theorem mkSDK_ok_key {secret saltEnv nodeEnv : Option (List Char)}
    {sdk : ModderSecureSDK} {w : List (List Char)}
    (h : mkSDK secret saltEnv nodeEnv = .ok (sdk, w)) :
    sdk.aesMasterKey.length = 32 ∧ ∀ b ∈ sdk.aesMasterKey, b < 256 := by
  match secret with
  | none => simp [mkSDK] at h
  | some s =>
    simp only [mkSDK] at h
    split at h
    · exact absurd h (by simp)
    · split at h
      · exact absurd h (by simp)
      · simp only [Except.ok.injEq, Prod.mk.injEq] at h
        obtain ⟨h1, h2⟩ := h
        rw [← h1]
        exact ⟨scryptSync_length _ _ _, scryptSync_lt _ _ _⟩

theorem hexDigit_ne_s (n : Nat) (h : n < 16) : hexDigit n ≠ 's' := by
  interval_cases n <;> decide

/-- **C6.**  `openMetadata(sealMetadata(requestId, timestamp))` on the same
instance returns exactly the `{requestId, timestamp}` object; the seal is a
plain colon-joined triple (three colon-separated fields, not starting with
the `msc` marker), produced under the instance's master key. -/
theorem C6_header_roundtrip (secret saltEnv nodeEnv : Option (List Char))
    (sdk : ModderSecureSDK) (w : List (List Char))
    (hmk : mkSDK secret saltEnv nodeEnv = .ok (sdk, w))
    (requestId : List Char) (ts : Int) (iv : List Nat)
    (hiv : iv.length = 12) (hivb : ∀ b ∈ iv, b < 256)
    (hascii : ∀ c ∈ jsonStringify (JsVal.obj
        [("requestId".data, .str requestId), ("timestamp".data, .num ts)]), c.toNat < 128) :
    ModderSecureSDK.decryptHeaderData sdk
        (ModderSecureSDK.encryptHeaderData sdk requestId ts iv)
      = .ok (.obj [("requestId".data, .str requestId), ("timestamp".data, .num ts)])
    ∧ (splitOnChar ':' (ModderSecureSDK.encryptHeaderData sdk requestId ts iv)).length = 3
    ∧ ¬ (ModderSecureSDK.encryptHeaderData sdk requestId ts iv).take 3 = "msc".data := by
  obtain ⟨hklen, hkb⟩ := mkSDK_ok_key hmk
  have hpt : ∀ b ∈ strBytes (jsonStringify (JsVal.obj
      [("requestId".data, .str requestId), ("timestamp".data, .num ts)])), b < 256 :=
    strBytes_lt hascii
  have hct : ∀ b ∈ (gcmEncrypt sdk.aesMasterKey iv (strBytes (jsonStringify (JsVal.obj
      [("requestId".data, .str requestId), ("timestamp".data, .num ts)])))).1, b < 256 :=
    maskAux_lt _ _ 0 _
  have htag : ∀ b ∈ (gcmEncrypt sdk.aesMasterKey iv (strBytes (jsonStringify (JsVal.obj
      [("requestId".data, .str requestId), ("timestamp".data, .num ts)])))).2, b < 256 :=
    tagOf_lt (by omega) (by omega) hkb hivb hct
  have hsplit := split_bundle (hexEncode iv)
    (hexEncode (gcmEncrypt sdk.aesMasterKey iv (strBytes (jsonStringify (JsVal.obj
      [("requestId".data, .str requestId), ("timestamp".data, .num ts)])))).1)
    (hexEncode (gcmEncrypt sdk.aesMasterKey iv (strBytes (jsonStringify (JsVal.obj
      [("requestId".data, .str requestId), ("timestamp".data, .num ts)])))).2)
    colon_not_mem_hexEncode colon_not_mem_hexEncode colon_not_mem_hexEncode
  refine ⟨?_, ?_, ?_⟩
  · rw [ModderSecureSDK.decryptHeaderData, ModderSecureSDK.encryptHeaderData]
    simp only [hsplit, hexDecode_hexEncode hivb, hexDecode_hexEncode hct,
      hexDecode_hexEncode htag, gcmDecrypt_gcmEncrypt hpt, bytesToChars_strBytes,
      jsonParse_stringify]
  · rw [ModderSecureSDK.encryptHeaderData]
    simp only [hsplit]
    rfl
  · rw [ModderSecureSDK.encryptHeaderData]
    cases iv with
    | nil => simp at hiv
    | cons a t =>
      intro h
      rw [show hexEncode (a :: t) ++ ':'
            :: (hexEncode (gcmEncrypt sdk.aesMasterKey (a :: t) (strBytes (jsonStringify
              (JsVal.obj [("requestId".data, .str requestId),
                ("timestamp".data, .num ts)])))).1 ++ ':'
              :: hexEncode (gcmEncrypt sdk.aesMasterKey (a :: t) (strBytes (jsonStringify
              (JsVal.obj [("requestId".data, .str requestId),
                ("timestamp".data, .num ts)])))).2)
          = hexDigit (a / 16 % 16) :: hexDigit (a % 16) :: (hexEncode t ++ ':'
            :: (hexEncode (gcmEncrypt sdk.aesMasterKey (a :: t) (strBytes (jsonStringify
              (JsVal.obj [("requestId".data, .str requestId),
                ("timestamp".data, .num ts)])))).1 ++ ':'
              :: hexEncode (gcmEncrypt sdk.aesMasterKey (a :: t) (strBytes (jsonStringify
              (JsVal.obj [("requestId".data, .str requestId),
                ("timestamp".data, .num ts)])))).2)) from by simp [hexEncode, hexByte]] at h
      simp only [List.take, show ("msc".data : List Char) = ['m', 's', 'c'] from rfl,
        List.cons.injEq] at h
      exact hexDigit_ne_s (a % 16) (Nat.mod_lt _ (by norm_num)) h.2.1

/-- Concrete instantiation of C6. -/
theorem C6_header_roundtrip_witness :
    ModderSecureSDK.decryptHeaderData ⟨scryptSync "k".data (strBytes DEV_FALLBACK_SALT) 32⟩
        (ModderSecureSDK.encryptHeaderData ⟨scryptSync "k".data (strBytes DEV_FALLBACK_SALT) 32⟩
          "rid".data 99 (List.range 12))
      = .ok (.obj [("requestId".data, .str "rid".data), ("timestamp".data, .num 99)]) :=
  (C6_header_roundtrip (some "k".data) none none
    ⟨scryptSync "k".data (strBytes DEV_FALLBACK_SALT) 32⟩ [] rfl "rid".data 99 (List.range 12)
    (by decide) (by decide) (by decide)).1

theorem base64Val_base64Char {n : Nat} (h : n < 64) : base64Val (base64Char n) = some n := by
  interval_cases n <;> decide

theorem base64Val_pad : base64Val '=' = none := by decide

theorem base64_roundtrip : ∀ fuel bs, bs.length ≤ fuel → (∀ b ∈ bs, b < 256) →
    base64Decode (base64Encode bs) = bs := by
  intro fuel
  induction fuel with
  | zero =>
    intro bs h _
    have hnil : bs = [] := List.length_eq_zero.mp (by omega)
    subst hnil
    rfl
  | succ f ih =>
    intro bs hlen hb
    match bs with
    | [] => rfl
    | [b1] =>
      have h1 : b1 < 256 := hb b1 (by simp)
      simp only [base64Encode, base64Decode,
        base64Val_base64Char (show b1 / 4 < 64 by omega),
        base64Val_base64Char (show b1 % 4 * 16 < 64 by omega), base64Val_pad]
      congr 1
      omega
    | [b1, b2] =>
      have h1 : b1 < 256 := hb b1 (by simp)
      have h2 : b2 < 256 := hb b2 (by simp)
      simp only [base64Encode, base64Decode,
        base64Val_base64Char (show b1 / 4 < 64 by omega),
        base64Val_base64Char (show b1 % 4 * 16 + b2 / 16 < 64 by omega),
        base64Val_base64Char (show b2 % 16 * 4 < 64 by omega), base64Val_pad]
      have e1 : b1 / 4 * 4 + (b1 % 4 * 16 + b2 / 16) / 16 = b1 := by omega
      have e2 : (b1 % 4 * 16 + b2 / 16) % 16 * 16 + b2 % 16 * 4 / 4 = b2 := by omega
      rw [e1, e2]
    | b1 :: b2 :: b3 :: rest =>
      have h1 : b1 < 256 := hb b1 (by simp)
      have h2 : b2 < 256 := hb b2 (by simp)
      have h3 : b3 < 256 := hb b3 (by simp)
      have hrest : ∀ b ∈ rest, b < 256 := fun b hbm => hb b (by simp [hbm])
      have hrlen : rest.length ≤ f := by
        simp only [List.length_cons] at hlen
        omega
      simp only [base64Encode, base64Decode,
        base64Val_base64Char (show b1 / 4 < 64 by omega),
        base64Val_base64Char (show b1 % 4 * 16 + b2 / 16 < 64 by omega),
        base64Val_base64Char (show b2 % 16 * 4 + b3 / 64 < 64 by omega),
        base64Val_base64Char (show b3 % 64 < 64 by omega), ih rest hrlen hrest]
      have e1 : b1 / 4 * 4 + (b1 % 4 * 16 + b2 / 16) / 16 = b1 := by omega
      have e2 : (b1 % 4 * 16 + b2 / 16) % 16 * 16 + (b2 % 16 * 4 + b3 / 64) / 4 = b2 := by omega
      have e3 : (b2 % 16 * 4 + b3 / 64) % 4 * 64 + b3 % 64 = b3 := by omega
      rw [e1, e2, e3]

theorem mem_strBytes_hexEncode_ne_255 {ks : List Nat} {b : Nat}
    (h : b ∈ strBytes (hexEncode ks)) : b ≠ 255 := by
  simp only [strBytes, List.mem_map] at h
  obtain ⟨c, hc, rfl⟩ := h
  have := mem_hexEncode_lt hc
  omega

theorem takeWhile_append_sep {A : List Nat} (m : List Nat) (h : ∀ b ∈ A, b ≠ 255) :
    (A ++ 255 :: m).takeWhile (fun b => b != 255) = A := by
  induction A with
  | nil => simp [List.takeWhile_cons]
  | cons a t ih =>
    have ha : a ≠ 255 := h a (by simp)
    have hab : (a != 255) = true := by simpa using ha
    simp only [List.cons_append, List.takeWhile_cons, hab, if_true]
    rw [ih (fun b hb => h b (by simp [hb]))]

theorem rsaPrivateDecrypt_enc (kp m : List Nat) :
    rsaPrivateDecrypt kp (rsaPublicEncrypt kp m) = some m := by
  have hpre : (strBytes (hexEncode kp) ++ 255 :: m).takeWhile (fun b => b != 255)
      = strBytes (hexEncode kp) :=
    takeWhile_append_sep m (fun b hb => mem_strBytes_hexEncode_ne_255 hb)
  rw [rsaPrivateDecrypt, rsaPublicEncrypt]
  simp [hpre, List.drop_left]

theorem strBytes_inj {s t : List Char} (h : strBytes s = strBytes t) : s = t := by
  have h2 := congrArg bytesToChars h
  rwa [bytesToChars_strBytes, bytesToChars_strBytes] at h2

theorem rsaPrivateDecrypt_enc_ne {kp kp' m : List Nat} (hkp : ∀ b ∈ kp, b < 256)
    (hkp' : ∀ b ∈ kp', b < 256) (hne : kp' ≠ kp) :
    rsaPrivateDecrypt kp' (rsaPublicEncrypt kp m) = none := by
  have hpre : (strBytes (hexEncode kp) ++ 255 :: m).takeWhile (fun b => b != 255)
      = strBytes (hexEncode kp) :=
    takeWhile_append_sep m (fun b hb => mem_strBytes_hexEncode_ne_255 hb)
  rw [rsaPrivateDecrypt, rsaPublicEncrypt]
  simp only [hpre, List.drop_left]
  rw [if_neg]
  intro heq
  have h2 := congrArg hexDecode (strBytes_inj heq)
  rw [hexDecode_hexEncode hkp, hexDecode_hexEncode hkp'] at h2
  exact hne h2.symm

theorem rsaPublicEncrypt_lt {kp m : List Nat} (hm : ∀ b ∈ m, b < 256) :
    ∀ b ∈ rsaPublicEncrypt kp m, b < 256 := by
  intro b hb
  simp only [rsaPublicEncrypt, List.mem_append, List.mem_cons] at hb
  rcases hb with h | rfl | h
  · simp only [strBytes, List.mem_map] at h
    obtain ⟨c, hc, rfl⟩ := h
    exact lt_trans (mem_hexEncode_lt hc) (by norm_num)
  · norm_num
  · exact hm b h

/-- **C5.**  For every 32-byte session key and matching RSA keypair,
`unwrap(wrap(sessionKey, pub), priv)` reproduces the session key exactly;
`wrap` rejects any session key that is not exactly 32 bytes with the
invalid-key-length error; unwrapping with a mismatched private key fails
with the unwrap error. -/
theorem C5_rsa_wrap (sessionKey keyMaterial : List Nat)
    (hskb : ∀ b ∈ sessionKey, b < 256) (hkmb : ∀ b ∈ keyMaterial, b < 256) :
    (sessionKey.length = 32 →
      (ModderSecureSDK.encryptSessionKeyWithRsa sessionKey keyMaterial).bind
          (fun wrapped => ModderSecureSDK.decryptSessionKeyWithRsa wrapped keyMaterial)
        = .ok sessionKey)
    ∧ (sessionKey.length ≠ 32 →
        ModderSecureSDK.encryptSessionKeyWithRsa sessionKey keyMaterial
          = .error .invalidRsaKeyLen)
    ∧ (∀ keyMaterial', (∀ b ∈ keyMaterial', b < 256) → keyMaterial' ≠ keyMaterial →
        sessionKey.length = 32 →
        (ModderSecureSDK.encryptSessionKeyWithRsa sessionKey keyMaterial).bind
            (fun wrapped => ModderSecureSDK.decryptSessionKeyWithRsa wrapped keyMaterial')
          = .error .unwrapFail) := by
  have henc : ∀ b ∈ rsaPublicEncrypt keyMaterial sessionKey, b < 256 :=
    rsaPublicEncrypt_lt hskb
  have hb64 : base64Decode (base64Encode (rsaPublicEncrypt keyMaterial sessionKey))
      = rsaPublicEncrypt keyMaterial sessionKey :=
    base64_roundtrip _ _ le_rfl henc
  refine ⟨?_, ?_, ?_⟩
  · intro h32
    rw [ModderSecureSDK.encryptSessionKeyWithRsa, if_neg (by omega)]
    show ModderSecureSDK.decryptSessionKeyWithRsa
        (base64Encode (rsaPublicEncrypt keyMaterial sessionKey)) keyMaterial
      = .ok sessionKey
    rw [ModderSecureSDK.decryptSessionKeyWithRsa]
    simp only [hb64, rsaPrivateDecrypt_enc]
  · intro h32
    rw [ModderSecureSDK.encryptSessionKeyWithRsa, if_pos h32]
  · intro keyMaterial' hkmb' hne h32
    rw [ModderSecureSDK.encryptSessionKeyWithRsa, if_neg (by omega)]
    show ModderSecureSDK.decryptSessionKeyWithRsa
        (base64Encode (rsaPublicEncrypt keyMaterial sessionKey)) keyMaterial'
      = .error .unwrapFail
    rw [ModderSecureSDK.decryptSessionKeyWithRsa]
    simp only [hb64, rsaPrivateDecrypt_enc_ne hkmb hkmb' hne]

/-- Concrete instantiation of C5: a 32-byte key round-trips through
wrap/unwrap, and a mismatched private key fails. -/
theorem C5_rsa_wrap_witness :
    (ModderSecureSDK.encryptSessionKeyWithRsa (List.range 32) [1, 2, 3]).bind
        (fun w => ModderSecureSDK.decryptSessionKeyWithRsa w [1, 2, 3]) = .ok (List.range 32)
    ∧ (ModderSecureSDK.encryptSessionKeyWithRsa (List.range 32) [1, 2, 3]).bind
        (fun w => ModderSecureSDK.decryptSessionKeyWithRsa w [9]) = .error .unwrapFail :=
  ⟨(C5_rsa_wrap (List.range 32) [1, 2, 3] (by decide) (by decide)).1 (by decide),
    (C5_rsa_wrap (List.range 32) [1, 2, 3] (by decide) (by decide)).2.2 [9] (by decide)
      (by decide) (by decide)⟩

/-! ## Construction and configuration (C7) -/

theorem mkSDK_ok_char {s : List Char} {saltEnv nodeEnv : Option (List Char)}
    {sdk : ModderSecureSDK} {w : List (List Char)}
    (h : mkSDK (some s) saltEnv nodeEnv = .ok (sdk, w)) :
    sdk.aesMasterKey
        = scryptSync s
            (strBytes (if envTruthy saltEnv = true then saltEnv.getD [] else DEV_FALLBACK_SALT))
            32
      ∧ w = []
      ∧ ¬ s.isEmpty = true
      ∧ ¬ (nodeEnv = some ("production".data) ∧ envTruthy saltEnv = false) := by
  simp only [mkSDK] at h
  split at h
  · exact absurd h (by simp)
  · split at h
    · exact absurd h (by simp)
    · simp only [Except.ok.injEq, Prod.mk.injEq] at h
      refine ⟨by rw [← h.1], h.2.symm, by assumption, by assumption⟩

/-- **C7 (amended).**  Construction fails with a `ConfigurationError` exactly
when the secret is absent/non-string/empty or the salt is absent (or empty)
in a production configuration; otherwise it derives one 32-byte master key
deterministically from (secret, salt); the fallback constant salt is used
only in non-production configurations, and it is used silently — the
constructor's console output (the second component) is always empty, so no
warning is logged. -/
theorem C7_construction (secret saltEnv nodeEnv : Option (List Char)) :
    ((∃ e, mkSDK secret saltEnv nodeEnv = .error e ∧ e.isConfigurationError = true)
      ↔ (secret = none ∨ secret = some []
          ∨ (nodeEnv = some ("production".data) ∧ envTruthy saltEnv = false)))
    ∧ (∀ s sdk w, mkSDK (some s) saltEnv nodeEnv = .ok (sdk, w) →
        sdk.aesMasterKey.length = 32 ∧ w = [])
    ∧ (∀ s nodeEnv2 sdk sdk2 w w2, mkSDK (some s) saltEnv nodeEnv = .ok (sdk, w) →
        mkSDK (some s) saltEnv nodeEnv2 = .ok (sdk2, w2) →
        sdk.aesMasterKey = sdk2.aesMasterKey)
    ∧ (∀ s sdk w, nodeEnv = some ("production".data) →
        mkSDK (some s) saltEnv nodeEnv = .ok (sdk, w) →
        envTruthy saltEnv = true
          ∧ sdk.aesMasterKey = scryptSync s (strBytes (saltEnv.getD [])) 32)
    ∧ (∀ s, s ≠ [] → envTruthy saltEnv = false → ¬ nodeEnv = some ("production".data) →
        mkSDK (some s) saltEnv nodeEnv
          = .ok (⟨scryptSync s (strBytes DEV_FALLBACK_SALT) 32⟩, [])) := by
  refine ⟨⟨?_, ?_⟩, ?_, ?_, ?_, ?_⟩
  · rintro ⟨e, he, -⟩
    match secret with
    | none => exact Or.inl rfl
    | some s =>
      by_cases hs : s.isEmpty
      · refine Or.inr (Or.inl ?_)
        rw [List.isEmpty_iff.mp hs]
      · by_cases hc : nodeEnv = some ("production".data) ∧ envTruthy saltEnv = false
        · exact Or.inr (Or.inr hc)
        · rw [mkSDK, if_neg hs, if_neg hc] at he
          exact absurd he (by simp)
  · intro h
    rcases h with rfl | rfl | h
    · exact ⟨.configSecretRequired, rfl, rfl⟩
    · exact ⟨.configSecretRequired, rfl, rfl⟩
    · match secret with
      | none => exact ⟨.configSecretRequired, rfl, rfl⟩
      | some s =>
        by_cases hs : s.isEmpty
        · refine ⟨.configSecretRequired, ?_, rfl⟩
          rw [mkSDK, if_pos hs]
        · refine ⟨.configSaltRequired, ?_, rfl⟩
          rw [mkSDK, if_neg hs, if_pos h]
  · intro s sdk w h
    obtain ⟨hkey, hw, -, -⟩ := mkSDK_ok_char h
    exact ⟨by rw [hkey]; exact scryptSync_length _ _ _, hw⟩
  · intro s nodeEnv2 sdk sdk2 w w2 h h2
    obtain ⟨hkey, -, -, -⟩ := mkSDK_ok_char h
    obtain ⟨hkey2, -, -, -⟩ := mkSDK_ok_char h2
    rw [hkey, hkey2]
  · intro s sdk w hprod h
    obtain ⟨hkey, -, -, hcond⟩ := mkSDK_ok_char h
    have hsalt : envTruthy saltEnv = true := by
      by_cases ht : envTruthy saltEnv = true
      · exact ht
      · exact absurd ⟨hprod, by simpa using ht⟩ hcond
    refine ⟨hsalt, ?_⟩
    rw [hkey, if_pos hsalt]
  · intro s hne hsalt hprod
    rw [mkSDK, if_neg (by simpa using hne), if_neg (by simp [hsalt, hprod]), if_neg (by simp [hsalt])]

/-- **C7 counterexample.**  In a non-production configuration with no salt the
constructor succeeds using the hardcoded fallback salt and its console output
is empty: no warning is logged, contrary to the claim. -/
theorem C7_counterexample :
    mkSDK (some "secret".data) none (some "development".data)
      = .ok (⟨scryptSync "secret".data (strBytes DEV_FALLBACK_SALT) 32⟩, []) := rfl

/-- Concrete instantiation of the amended C7 theorem: missing salt in
production is a configuration failure. -/
theorem C7_construction_witness :
    ∃ e, mkSDK (some "s".data) none (some "production".data) = .error e
      ∧ e.isConfigurationError = true :=
  (C7_construction (some "s".data) none (some "production".data)).1.mpr
    (Or.inr (Or.inr ⟨rfl, rfl⟩))

/-- **C8.**  `isAuthorized(candidateToken)` is true exactly when the candidate
equals the server-held secret token; when the premium request handler is
given an unauthorized token it fails with the authorization error and its
result does not depend on the supplied ciphertext — no decryption is
performed. -/
theorem C8_gate :
    (∀ (candidate : List Char) (envTok : Option (List Char)),
        isValidPseudoKey candidate envTok = true ↔ envTok = some candidate)
    ∧ (∀ (pseudoKey encryptedRequestData : List Char) (sessionKey : List Nat)
        (envTok : Option (List Char)) (iv : List Nat) (reqId : List Char) (ts : Int)
        (newId : List Char),
        isValidPseudoKey pseudoKey envTok = false →
        handlePremiumRequest pseudoKey encryptedRequestData sessionKey envTok iv reqId ts newId
          = .error .authzFail) := by
  constructor
  · intro candidate envTok
    match envTok with
    | none => simp [isValidPseudoKey]
    | some t =>
      simp only [isValidPseudoKey, beq_iff_eq, Option.some.injEq]
      exact eq_comm
  · intro pseudoKey encryptedRequestData sessionKey envTok iv reqId ts newId h
    rw [handlePremiumRequest, if_neg (by simp [h])]

/-- Concrete instantiation of C8: a wrong token is rejected without touching
the ciphertext. -/
theorem C8_gate_witness :
    handlePremiumRequest "wrong".data "anything".data (List.range 32) (some "tok".data)
      (List.range 12) "r".data 0 "n".data = .error .authzFail :=
  C8_gate.2 "wrong".data "anything".data (List.range 32) (some "tok".data) (List.range 12)
    "r".data 0 "n".data (by decide)

/-- **C9.**  The access-token comparison is the plain `===` equality, whose
short-circuit evaluation inspects only the matching leading characters: two
wrong candidates of equal length cost 3 steps and 1 step respectively against
the secret `"abc"`, so the comparison's running time depends on how many
leading characters match — it is not constant-time. -/
theorem C9_timing :
    isValidPseudoKey "abx".data (some "abc".data) = false
    ∧ isValidPseudoKey "xbc".data (some "abc".data) = false
    ∧ ("abx".data : List Char).length = ("xbc".data : List Char).length
    ∧ eqSteps "abc".data "abx".data = 3
    ∧ eqSteps "abc".data "xbc".data = 1 := by
  decide

/-! ## Validation order of `decrypt` (C4) -/

theorem ModderSecureSDK.isSecuredFalse_eq_false {o : Option JsVal} (h : ¬ o = some (JsVal.bool false)) :
    ModderSecureSDK.isSecuredFalse o = false := by
  match o with
  | none => rfl
  | some .null => rfl
  | some (.bool true) => rfl
  | some (.bool false) => exact absurd rfl h
  | some (.num _) => rfl
  | some (.str _) => rfl
  | some (.arr _) => rfl
  | some (.obj _) => rfl

theorem decrypt_eq_parse {s : List Char} {k : List Nat} (hk : k.length = 32) (hne : s ≠ [])
    (hpre : s.take 4 = "msc\x7b".data ∧ s.getLast? = some '}') :
    ModderSecureSDK.decrypt s k
      = match jsonParse (s.drop 3) with
        | none => .error .formatJson
        | some j => ModderSecureSDK.decryptParsed j k := by
  rw [ModderSecureSDK.decrypt, if_neg (by omega)]
  rw [isEmpty_false_of_ne_nil hne]
  rw [if_neg (by simp), if_neg (not_not_intro hpre)]

theorem parseMembers_head_bad {c : Char} (r : List Char) (h : ¬ c = '"') :
    ∀ fuel, parseMembers fuel (c :: r) = none := by
  intro fuel
  cases fuel with
  | zero => rfl
  | succ f =>
    simp only [parseMembers]
    rw [if_neg h]

/-- An object body whose first token is neither a string key nor a closing
brace is rejected by the value parser — the same token-level failure point at
which `JSON.parse` rejects it, whatever follows. -/
theorem parseVal_obj_bad {u : List Char} {c : Char} {r : List Char}
    (hu : skipWs u = c :: r) (h1 : ¬ c = '"') (h2 : ¬ c = '}') (fuel : Nat) :
    parseVal (fuel + 1) ('{' :: u) = none := by
  simp only [parseVal]
  rw [skipWs_not_ws _ (by decide)]
  simp only [if_pos rfl, if_true]
  rw [hu]
  simp only [if_neg h2]
  rw [parseMembers_head_bad r h1 fuel]
  rfl

theorem jsonParse_obj_bad {u : List Char} {c : Char} {r : List Char}
    (hu : skipWs u = c :: r) (h1 : ¬ c = '"') (h2 : ¬ c = '}') :
    jsonParse ('{' :: u) = none := by
  rw [jsonParse]
  rw [show ('{' :: u).length + 1 = u.length + 1 + 1 from by simp]
  rw [parseVal_obj_bad hu h1 h2 (u.length + 1)]

/-- **C4 (amended).**  `decrypt` validates in this fixed order before any
cryptographic operation: (1) for every input string, a missing `msc{` marker
or missing closing brace is a `FormatError`; (2) an envelope body whose first
token after the opening brace is neither a string key nor a closing brace —
the token-level failure point shared with `JSON.parse` — is the JSON
`FormatError`; then, on any envelope printed from a structured value:
(3) `is_secured` explicitly `false` is the `UnsecuredDataError` (an absent
flag proceeds); (4) a missing or mistyped required field (non-empty string
`id`, non-empty string `new_id`, string `request`, numeric `timestamp`) is a
`StructureError`, in that order; (5) a (reversed) `id` splitting on colons
into a number of parts other than three is the bundle `FormatError` — the
parts themselves may be empty. -/
theorem C4_validation (k : List Nat) (hk : k.length = 32) :
    (∀ s : List Char, ¬ (s.take 4 = "msc\x7b".data ∧ s.getLast? = some '}') →
      ∃ e, ModderSecureSDK.decrypt s k = .error e ∧ e.isFormatError = true)
    ∧ (∀ t c r, skipWs (t ++ ['}']) = c :: r → ¬ c = '"' → ¬ c = '}' →
        ModderSecureSDK.decrypt ("msc\x7b".data ++ (t ++ ['}'])) k = .error .formatJson
          ∧ SdkError.formatJson.isFormatError = true)
    ∧ (∀ fs, getField (JsVal.obj fs) ("is_secured".data) = some (.bool false) →
        ModderSecureSDK.decrypt ("msc".data ++ jsonStringify (.obj fs)) k
          = .error .unsecuredData)
    ∧ (∀ fs, ¬ getField (JsVal.obj fs) ("is_secured".data) = some (.bool false) →
        ¬ StructOk (.obj fs) →
        ∃ e, ModderSecureSDK.decrypt ("msc".data ++ jsonStringify (.obj fs)) k = .error e
          ∧ e.isStructureError = true)
    ∧ (∀ fs idStr newIdStr reqStr tsn,
        ¬ getField (JsVal.obj fs) ("is_secured".data) = some (.bool false) →
        ModderSecureSDK.jsStringField (getField (JsVal.obj fs) ("id".data)) = some idStr →
          idStr ≠ [] →
        ModderSecureSDK.jsStringField (getField (JsVal.obj fs) ("new_id".data)) = some newIdStr →
          newIdStr ≠ [] →
        ModderSecureSDK.jsStringField (getField (JsVal.obj fs) ("request".data)) = some reqStr →
        ModderSecureSDK.jsNumField (getField (JsVal.obj fs) ("timestamp".data)) = some tsn →
        (splitOnChar ':' idStr.reverse).length ≠ 3 →
        ModderSecureSDK.decrypt ("msc".data ++ jsonStringify (.obj fs)) k
          = .error .formatBundle
          ∧ SdkError.formatBundle.isFormatError = true) := by
  refine ⟨?_, ?_, ?_, ?_, ?_⟩
  · intro s hpre
    by_cases hne : s = []
    · subst hne
      refine ⟨.inputNotString, ?_, rfl⟩
      rw [ModderSecureSDK.decrypt, if_neg (by omega)]
      rfl
    · refine ⟨.formatMsc, ?_, rfl⟩
      rw [ModderSecureSDK.decrypt, if_neg (by omega)]
      rw [isEmpty_false_of_ne_nil hne]
      rw [if_neg (by simp), if_pos hpre]
  · intro t c r hu h1 h2
    refine ⟨?_, rfl⟩
    have hne : "msc\x7b".data ++ (t ++ ['}']) ≠ [] := by simp
    have heq : "msc\x7b".data ++ (t ++ ['}'])
        = ('m' :: 's' :: 'c' :: '{' :: t) ++ ['}'] := by simp
    have hpre : ("msc\x7b".data ++ (t ++ ['}'])).take 4 = "msc\x7b".data
        ∧ ("msc\x7b".data ++ (t ++ ['}'])).getLast? = some '}' := by
      constructor
      · rfl
      · rw [heq]
        exact List.getLast?_concat _
    rw [decrypt_eq_parse hk hne hpre]
    have hdrop : ("msc\x7b".data ++ (t ++ ['}'])).drop 3 = '{' :: (t ++ ['}']) := rfl
    rw [hdrop, jsonParse_obj_bad hu h1 h2]
  · intro fs hsec
    rw [decrypt_msc_obj fs k hk]
    show ModderSecureSDK.decryptParsed (JsVal.obj fs) k = .error .unsecuredData
    rw [ModderSecureSDK.decryptParsed, hsec]
    rfl
  · intro fs hsec hstruct
    rw [decrypt_msc_obj fs k hk]
    show ∃ e, ModderSecureSDK.decryptParsed (JsVal.obj fs) k = .error e
      ∧ e.isStructureError = true
    have hsecF : ModderSecureSDK.isSecuredFalse
        (getField (JsVal.obj fs) ("is_secured".data)) = false :=
      ModderSecureSDK.isSecuredFalse_eq_false hsec
    cases hid0 : ModderSecureSDK.jsStringField (getField (JsVal.obj fs) ("id".data)) with
    | none =>
      refine ⟨.structureId, ?_, rfl⟩
      rw [ModderSecureSDK.decryptParsed, hsecF]
      simp only [Bool.false_eq_true, if_false, hid0]
    | some idStr =>
      by_cases hie : idStr.isEmpty
      · refine ⟨.structureId, ?_, rfl⟩
        rw [ModderSecureSDK.decryptParsed, hsecF]
        simp only [Bool.false_eq_true, if_false, hid0, hie, if_true]
      · cases hnid0 : ModderSecureSDK.jsStringField (getField (JsVal.obj fs) ("new_id".data)) with
        | none =>
          refine ⟨.structureNewId, ?_, rfl⟩
          rw [ModderSecureSDK.decryptParsed, hsecF]
          simp only [Bool.false_eq_true, if_false, hid0, hie, hnid0]
        | some nid =>
          by_cases hnie : nid.isEmpty
          · refine ⟨.structureNewId, ?_, rfl⟩
            rw [ModderSecureSDK.decryptParsed, hsecF]
            simp only [Bool.false_eq_true, if_false, hid0, hie, hnid0, hnie, if_true]
          · cases hreq : ModderSecureSDK.jsStringField (getField (JsVal.obj fs) ("request".data)) with
            | none =>
              refine ⟨.structureReqTs, ?_, rfl⟩
              rw [ModderSecureSDK.decryptParsed, hsecF]
              simp only [Bool.false_eq_true, if_false, hid0, hie, hnid0, hnie, hreq]
            | some rq =>
              cases hts : ModderSecureSDK.jsNumField (getField (JsVal.obj fs) ("timestamp".data)) with
              | none =>
                refine ⟨.structureReqTs, ?_, rfl⟩
                rw [ModderSecureSDK.decryptParsed, hsecF]
                simp only [Bool.false_eq_true, if_false, hid0, hie, hnid0, hnie, hreq, hts]
              | some n =>
                exact absurd ⟨⟨idStr, hid0, by simpa using hie⟩, ⟨nid, hnid0, by simpa using hnie⟩,
                  ⟨rq, hreq⟩, ⟨n, hts⟩⟩ hstruct
  · intro fs idStr newIdStr reqStr tsn hsec hid0 hidne hnid0 hnidne hreq hts hsplit
    rw [decrypt_msc_obj fs k hk]
    show ModderSecureSDK.decryptParsed (JsVal.obj fs) k = .error .formatBundle
      ∧ SdkError.formatBundle.isFormatError = true
    have hsecF : ModderSecureSDK.isSecuredFalse
        (getField (JsVal.obj fs) ("is_secured".data)) = false :=
      ModderSecureSDK.isSecuredFalse_eq_false hsec
    refine ⟨?_, rfl⟩
    rw [ModderSecureSDK.decryptParsed, hsecF]
    simp only [Bool.false_eq_true, if_false, hid0, isEmpty_false_of_ne_nil hidne, hnid0,
      isEmpty_false_of_ne_nil hnidne, hreq, hts]
    cases hp : splitOnChar ':' idStr.reverse with
    | nil => rfl
    | cons p0 t0 =>
      cases t0 with
      | nil => rfl
      | cons p1 t1 =>
        cases t1 with
        | nil => rfl
        | cons p2 t2 =>
          cases t2 with
          | nil => exact absurd (by rw [hp]; rfl) hsplit
          | cons p3 t3 => rfl

set_option maxRecDepth 100000 in
/-- **C4 counterexample.**  A bundle whose ciphertext part is *empty* still
splits into exactly three colon-separated parts, so the split check passes —
refuting the claim's demand that the three parts be non-empty, with a
`FormatError` otherwise.  The envelope below carries an empty ciphertext with
its matching (genuine-for-empty) tag: `decrypt` accepts the split, the 12-byte
nonce and full genuine tag pass the platform calls, the AEAD verifies, and the
failure arises only when the empty plaintext reaches `JSON.parse` inside the
`try` block — surfacing `AuthenticationError`, not the `FormatError` the
claim requires. -/
theorem C4_counterexample :
    splitOnChar ':'
        (hexEncode (List.range 12) ++ ':' :: ':'
          :: hexEncode (tagOf (List.range 32) (List.range 12) []))
      = [hexEncode (List.range 12), [],
          hexEncode (tagOf (List.range 32) (List.range 12) [])]
    ∧ ModderSecureSDK.decrypt
        (mkEnvelope
          (hexEncode (List.range 12) ++ ':' :: ':'
            :: hexEncode (tagOf (List.range 32) (List.range 12) [])).reverse
          "n".data "r".data 0)
        (List.range 32)
      = .error .authFail
    ∧ SdkError.authFail.isFormatError = false := by
  refine ⟨rfl, ?_, rfl⟩
  rfl

/-- Concrete instantiations of the amended C4 theorem: a non-`msc` string is a
format failure, an envelope body opening with `]` is the JSON format failure,
and an explicit `is_secured: false` envelope is the unsecured-data failure. -/
theorem C4_validation_witness :
    (∃ e, ModderSecureSDK.decrypt "garbage".data (List.range 32) = .error e
        ∧ e.isFormatError = true)
    ∧ ModderSecureSDK.decrypt ("msc\x7b".data ++ ("]".data ++ ['}'])) (List.range 32)
        = .error .formatJson
    ∧ ModderSecureSDK.decrypt
        ("msc".data ++ jsonStringify (.obj [("is_secured".data, .bool false)]))
        (List.range 32) = .error .unsecuredData :=
  ⟨(C4_validation (List.range 32) (by decide)).1 "garbage".data (by decide),
    ((C4_validation (List.range 32) (by decide)).2.1 "]".data ']' ['}'] (by decide)
      (by decide) (by decide)).1,
    (C4_validation (List.range 32) (by decide)).2.2.1 [("is_secured".data, .bool false)]
      (by rfl)⟩
